import Mathlib

/-!
# Verification of the vapix error taxonomy and ISO-8601 timestamp codec

Shallow embedding of `src/error.rs` (the unified error type, API-error-code
classification, the 404 normalization transform and the `Display`
implementation) and of `src/v3/recordings/iso8601.rs` (the strict RFC-3339
timestamp serializer/deserializer, which delegates to the chrono library's
`DateTime::to_rfc3339` and `DateTime::parse_from_rfc3339`).

Machine integers of the source (`u32` API codes, HTTP status codes, offset
seconds) are modelled as `Nat`/`Int`; none of the verified operations can
overflow their source-level widths on the values the types admit.
-/

deriving instance DecidableEq for Except

namespace Vapix

/-! ## Embedding of `src/error.rs` -/

/-- Opaque model of `serde_json::Error` (an external collaborator): only its
debug rendering is ever observed by this crate. -/
structure SerdeJsonError where
  debugRepr : String
deriving DecidableEq, Repr

/-- Opaque model of `quick_xml::DeError` (an external collaborator): only its
debug rendering is ever observed by this crate. -/
structure QuickXmlDeError where
  debugRepr : String
deriving DecidableEq, Repr

/-- Opaque model of `http::header::HeaderValue` (an external collaborator):
the raw header bytes. -/
structure HeaderValue where
  bytes : String
deriving DecidableEq, Repr

/-- `enum UnparseableResponseError` from `src/error.rs`: which structured
decoding format failed, carrying the decoder's native error. -/
inductive UnparseableResponseError where
  | JsonDeError (e : SerdeJsonError)
  | XmlDeError (e : QuickXmlDeError)
deriving DecidableEq, Repr

/-- `struct RawJsonApiError` from `src/error.rs`: the wire-level error shape,
a numeric `code` (`u32`, modelled as `Nat`) and an optional `message`. -/
structure RawJsonApiError where
  code : Nat
  message : Option String
deriving DecidableEq, Repr

/-- `enum ApiError` from `src/error.rs`: the semantic classification of a raw
server-reported code, with an escape variant preserving unrecognized codes. -/
inductive ApiError where
  | InvalidParameter
  | AccessForbidden
  | UnsupportedHttpMethod
  | UnsupportedApiVersion
  | UnsupportedApiMethod
  | InvalidJsonFormat
  | RequiredParameterIsMissing
  | InternalError
  | OtherError (e : RawJsonApiError)
deriving DecidableEq, Repr

/-- `impl From<RawJsonApiError> for ApiError` from `src/error.rs`: the match
on `e.code`.  (`Box::new` in the source is the identity here.) -/
def ApiError.fromRaw (e : RawJsonApiError) : ApiError :=
  match e.code with
  | 1000 => ApiError.InvalidParameter
  | 2001 => ApiError.AccessForbidden
  | 2002 => ApiError.UnsupportedHttpMethod
  | 2003 => ApiError.UnsupportedApiVersion
  | 2004 => ApiError.UnsupportedApiMethod
  | 4000 => ApiError.InvalidJsonFormat
  | 4002 => ApiError.RequiredParameterIsMissing
  | 8000 => ApiError.InternalError
  | _ => ApiError.OtherError e

/-- `enum Error<TE>` from `src/error.rs`: the unified, transport-generic error
taxonomy.  HTTP status codes (`http::StatusCode`) are modelled as `Nat`. -/
inductive Error (TE : Type) where
  | TransportError (te : TE)
  | BadStatusCodeError (sc : Nat)
  | BadContentTypeError (ct : Option HeaderValue)
  | UnparseableResponseError (e : UnparseableResponseError)
  | ApiError (e : ApiError)
  | UnsupportedFeature
  | Other (msg : String)
deriving DecidableEq, Repr

/-- `impl From<serde_json::Error> for Error<TE>` from `src/error.rs`. -/
def Error.fromSerdeJson {TE : Type} (e : SerdeJsonError) : Error TE :=
  Error.UnparseableResponseError (UnparseableResponseError.JsonDeError e)

/-- `impl From<quick_xml::DeError> for Error<TE>` from `src/error.rs`. -/
def Error.fromQuickXml {TE : Type} (e : QuickXmlDeError) : Error TE :=
  Error.UnparseableResponseError (UnparseableResponseError.XmlDeError e)

/-- `impl From<ApiError> for Error<TE>` from `src/error.rs`. -/
def Error.fromApiError {TE : Type} (e : Vapix.ApiError) : Error TE :=
  Error.ApiError e

/-- `impl From<RawJsonApiError> for Error<TE>` from `src/error.rs`:
`Error::ApiError(e.into())`. -/
def Error.fromRawJsonApiError {TE : Type} (e : RawJsonApiError) : Error TE :=
  Error.ApiError (ApiError.fromRaw e)

/-- Rust's `?`-operator conversion at a fallible JSON decode boundary: a
`Result<T, serde_json::Error>` propagated inside a function returning
`Result<T, Error<TE>>` is rewritten through `From<serde_json::Error>`.
This is the automatic conversion the language inserts; no call site writes
its own wrapping. -/
def liftJsonResult {TE T : Type} (r : Except SerdeJsonError T) : Except (Error TE) T :=
  match r with
  | Except.ok v => Except.ok v
  | Except.error e => Except.error (Error.fromSerdeJson e)

/-- Rust's `?`-operator conversion at a fallible XML decode boundary, through
`From<quick_xml::DeError>`. -/
def liftXmlResult {TE T : Type} (r : Except QuickXmlDeError T) : Except (Error TE) T :=
  match r with
  | Except.ok v => Except.ok v
  | Except.error e => Except.error (Error.fromQuickXml e)

/-- Rust debug escaping of a single character, as used by `{:?}` on strings
(`char::escape_debug` with double quotes escaped): named escapes for quote,
backslash, newline, carriage return, tab and NUL; every other non-printable
character is escaped as a lowercase-hex code point in braces, which on the
ASCII range means the remaining C0 controls and DEL (U+007F); printable
ASCII passes through unchanged.  This model is exact on ASCII; beyond
U+007F Rust consults Unicode printability and grapheme-extension tables not
modelled here (such characters are passed through, the printable case), so
the theorems about the failure message's exact text restrict inputs to
ASCII. -/
def rustEscapeChar (c : Char) : List Char :=
  if c = '"' then ['\\', '"']
  else if c = '\\' then ['\\', '\\']
  else if c = '\n' then ['\\', 'n']
  else if c = '\r' then ['\\', 'r']
  else if c = '\t' then ['\\', 't']
  else if c.toNat = 0 then ['\\', '0']
  else if c.toNat < 32 ∨ c.toNat = 127 then
    ['\\', 'u', '\x7b'] ++ (Nat.toDigits 16 c.toNat) ++ ['\x7d']
  else [c]

/-- An ASCII character, the range on which the debug-escape model is exact. -/
def asciiChar (c : Char) : Bool :=
  c.toNat < 128

/-- A character that Rust's `{:?}` string rendering emits verbatim: printable
ASCII other than the quote and the backslash.  Control characters — the C0
range and DEL — and everything beyond ASCII are excluded. -/
def rustPlainChar (c : Char) : Bool :=
  c ≠ '"' && c ≠ '\\' && 32 ≤ c.toNat && c.toNat < 127

/-- Rust `{:?}` (Debug) rendering of a string: the escaped text wrapped in
double quotes. -/
def rustDebugString (s : String) : String :=
  String.mk ('"' :: s.data.flatMap rustEscapeChar ++ ['"'])

/-- Derived `Debug` rendering of `Option<String>` (Rust `#[derive(Debug)]`
conventions). -/
def debugOptionString (m : Option String) : String :=
  match m with
  | none => "None"
  | some s => "Some(" ++ rustDebugString s ++ ")"

/-- Derived `Debug` rendering of `RawJsonApiError`. -/
def RawJsonApiError.debugFmt (e : RawJsonApiError) : String :=
  "RawJsonApiError \x7b code: " ++ toString e.code ++ ", message: "
    ++ debugOptionString e.message ++ " \x7d"

/-- Derived `Debug` rendering of `ApiError`. -/
def ApiError.debugFmt (e : ApiError) : String :=
  match e with
  | ApiError.InvalidParameter => "InvalidParameter"
  | ApiError.AccessForbidden => "AccessForbidden"
  | ApiError.UnsupportedHttpMethod => "UnsupportedHttpMethod"
  | ApiError.UnsupportedApiVersion => "UnsupportedApiVersion"
  | ApiError.UnsupportedApiMethod => "UnsupportedApiMethod"
  | ApiError.InvalidJsonFormat => "InvalidJsonFormat"
  | ApiError.RequiredParameterIsMissing => "RequiredParameterIsMissing"
  | ApiError.InternalError => "InternalError"
  | ApiError.OtherError raw => "OtherError(" ++ raw.debugFmt ++ ")"

/-- Derived `Debug` rendering of `UnparseableResponseError` (the payloads are
external errors, rendered by their own opaque debug representation). -/
def UnparseableResponseError.debugFmt (e : UnparseableResponseError) : String :=
  match e with
  | UnparseableResponseError.JsonDeError je => "JsonDeError(" ++ je.debugRepr ++ ")"
  | UnparseableResponseError.XmlDeError xe => "XmlDeError(" ++ xe.debugRepr ++ ")"

/-- `impl fmt::Display for Error<TE>` from `src/error.rs`.  The transport
error's own `Display` (`showTE`), the `Display` of `http::StatusCode`
(`showStatus`) and the `Debug` of `Option<HeaderValue>` (`debugCT`) belong to
external collaborators and are passed in as parameters; everything else is the
literal formatting the source performs.  The function is total: no variant's
rendering can fail. -/
def Error.display {TE : Type} (showTE : TE → String) (showStatus : Nat → String)
    (debugCT : Option HeaderValue → String) : Error TE → String
  | Error.TransportError te => "transport error: " ++ showTE te
  | Error.BadStatusCodeError sc => "bad status code: " ++ showStatus sc
  | Error.BadContentTypeError ct => "bad content type: got " ++ debugCT ct
  | Error.UnparseableResponseError e => "unparseable response: " ++ e.debugFmt
  | Error.ApiError e => "JSON API error: " ++ e.debugFmt
  | Error.UnsupportedFeature => "this device does not support that feature"
  | Error.Other e => "error: " ++ e

/-- `ResultExt::map_404_to_unsupported_feature` from `src/error.rs`
(`http::StatusCode::NOT_FOUND` is 404): rewrites exactly
`Err(Error::BadStatusCodeError(404))` into `Err(Error::UnsupportedFeature)`
and leaves every other result unchanged. -/
def map404ToUnsupportedFeature {T TE : Type} (r : Except (Error TE) T) :
    Except (Error TE) T :=
  match r with
  | Except.error (Error.BadStatusCodeError 404) =>
      Except.error Error.UnsupportedFeature
  | other => other

/-! ## Embedding of `src/v3/recordings/iso8601.rs`

The source functions delegate to the chrono library:
`serialize` calls `DateTime::to_rfc3339` and emits the string through
`Serializer::serialize_str`; `deserialize` requests a string from the
deserializer (`deserialize_str`) with a visitor whose only implemented method
is `visit_str`, which calls `DateTime::parse_from_rfc3339` and wraps its
failure in a custom serde error.  The chrono entry points are modelled below,
faithful to chrono 0.4's `write_rfc3339` (with `SecondsFormat::AutoSi` and
`use_z = false`) and `parse_rfc3339` / `Parsed::to_datetime`.  The model
covers the chrono value space except the leap-second representation
(`nanosecond >= 1_000_000_000` inside a stored `DateTime`); parsing of the
leap second `60` is modelled, as chrono folds it into that representation. -/

/-- A chrono `DateTime<FixedOffset>` value: the civil (local) calendar fields
plus the fixed offset in seconds (chrono invariant: strictly between -86400
and 86400).  chrono stores the instant internally; the instant is the local
time minus the offset, so the (local fields, offset) pair carries exactly the
same information for valid fields. -/
structure DateTimeFixed where
  year : Int
  month : Nat
  day : Nat
  hour : Nat
  minute : Nat
  second : Nat
  nano : Nat
  offset : Int
deriving DecidableEq, Repr

/-- Days in a month of the proleptic Gregorian calendar (chrono's calendar). -/
def daysInMonth (y : Int) (m : Nat) : Nat :=
  let leap : Bool := y % 4 = 0 && (y % 100 ≠ 0 || y % 400 = 0)
  match m with
  | 1 => 31
  | 2 => if leap then 29 else 28
  | 3 => 31
  | 4 => 30
  | 5 => 31
  | 6 => 30
  | 7 => 31
  | 8 => 31
  | 9 => 30
  | 10 => 31
  | 11 => 30
  | _ => 31

/-- The chrono type invariants of a `DateTime<FixedOffset>`, restricted to the
model's scope (no leap-second representation, i.e. `nano < 10^9`). -/
def DateTimeFixed.isValid (dt : DateTimeFixed) : Prop :=
  1 ≤ dt.month ∧ dt.month ≤ 12 ∧ 1 ≤ dt.day ∧ dt.day ≤ daysInMonth dt.year dt.month ∧
  dt.hour ≤ 23 ∧ dt.minute ≤ 59 ∧ dt.second ≤ 59 ∧ dt.nano < 1000000000 ∧
  -86400 < dt.offset ∧ dt.offset < 86400

instance (dt : DateTimeFixed) : Decidable dt.isValid := by
  unfold DateTimeFixed.isValid; infer_instance

/-- Days since 1970-01-01 of a civil date (Howard Hinnant's `days_from_civil`,
the algorithm underlying proleptic-Gregorian day arithmetic; translated with
Lean's truncating `Int` division matching C++).  Used only to express the
instant a timestamp denotes. -/
def daysFromCivil (y : Int) (m d : Nat) : Int :=
  let yAdj : Int := if m ≤ 2 then y - 1 else y
  let era : Int := (if 0 ≤ yAdj then yAdj else yAdj - 399) / 400
  let yoe : Int := yAdj - era * 400
  let mp : Nat := (m + 9) % 12
  let doy : Int := (153 * (mp : Int) + 2) / 5 + (d : Int) - 1
  let doe : Int := yoe * 365 + yoe / 4 - yoe / 100 + doy
  era * 146097 + doe - 719468

/-- The instant a timestamp denotes, in whole seconds since the Unix epoch:
local civil seconds minus the UTC offset. -/
def DateTimeFixed.instantSeconds (dt : DateTimeFixed) : Int :=
  daysFromCivil dt.year dt.month dt.day * 86400
    + (dt.hour : Int) * 3600 + (dt.minute : Int) * 60 + (dt.second : Int)
    - dt.offset

/-- The ASCII digit for `d` (`b'0' + d` in chrono's `write_hundreds`), for
digits 0 through 9. -/
def digitChar (d : Nat) : Char :=
  match d with
  | 0 => '0'
  | 1 => '1'
  | 2 => '2'
  | 3 => '3'
  | 4 => '4'
  | 5 => '5'
  | 6 => '6'
  | 7 => '7'
  | 8 => '8'
  | _ => '9'

/-- Zero-padded fixed-width decimal rendering, most significant digit first
(the effect of chrono's `write_hundreds` pairs and `write!("{:0w}")`). -/
def padNum : Nat → Nat → List Char
  | 0, _ => []
  | w + 1, n => digitChar (n / 10 ^ w % 10) :: padNum w n

/-- Digit-accumulation loop for `natDigits`; the fuel argument only bounds
the recursion depth and is always sufficient. -/
def natDigitsGo (fuel n : Nat) (acc : List Char) : List Char :=
  match fuel with
  | 0 => acc
  | f + 1 =>
    if n < 10 then digitChar n :: acc
    else natDigitsGo f (n / 10) (digitChar (n % 10) :: acc)

/-- Full (unpadded) decimal digits of a natural number, most significant
first. -/
def natDigits (n : Nat) : List Char :=
  natDigitsGo (n + 1) n []

/-- Left-pad a digit string with zeros to a minimum width (the effect of a
zero-padded minimum-width Rust format such as the year's sign branch). -/
def zeroPad (w : Nat) (ds : List Char) : List Char :=
  List.replicate (w - ds.length) '0' ++ ds

/-- The year field as written by chrono's `write_rfc3339`: four zero-padded
digits (two `write_hundreds` calls) for years 0 through 9999, otherwise the
sign followed by the digits zero-padded to at least four (Rust format
specifier with explicit plus sign and zero-padded minimum width 5). -/
def yearPart (y : Int) : List Char :=
  if 0 ≤ y ∧ y ≤ 9999 then
    padNum 2 (y.toNat / 100) ++ padNum 2 (y.toNat % 100)
  else if y < 0 then '-' :: zeroPad 4 (natDigits (-y).toNat)
  else '+' :: zeroPad 4 (natDigits y.toNat)

/-- The fractional-second field under chrono's `SecondsFormat::AutoSi`:
nothing when the nanoseconds are zero; otherwise 3, 6 or 9 digits after a
dot, using the shortest SI width that loses nothing. -/
def fracPart (nano : Nat) : List Char :=
  if nano = 0 then []
  else if nano % 1000000 = 0 then '.' :: padNum 3 (nano / 1000000)
  else if nano % 1000 = 0 then '.' :: padNum 6 (nano / 1000)
  else '.' :: padNum 9 nano

/-- The offset field as written by chrono's rfc3339 writer with `use_z =
false`: always a sign followed by two-digit hours, a colon and two-digit
minutes; a sub-minute seconds component of the offset is not representable
and is truncated. -/
def offsetPart (off : Int) : List Char :=
  let sign : Char := if off < 0 then '-' else '+'
  let a : Nat := if off < 0 then (-off).toNat else off.toNat
  sign :: (padNum 2 (a / 3600) ++ ':' :: padNum 2 (a / 60 % 60))

/-- chrono's `DateTime::to_rfc3339` (via `write_rfc3339` with
`SecondsFormat::AutoSi`, `use_z = false`): the local calendar fields followed
by the fractional seconds and the numeric offset. -/
def toRfc3339 (dt : DateTimeFixed) : List Char :=
  yearPart dt.year ++ ('-' :: (padNum 2 dt.month ++ ('-' :: (padNum 2 dt.day
    ++ ('T' :: (padNum 2 dt.hour ++ (':' :: (padNum 2 dt.minute
    ++ (':' :: (padNum 2 dt.second
    ++ (fracPart dt.nano ++ offsetPart dt.offset)))))))))))

/-- chrono's `ParseErrorKind`. -/
inductive ParseError where
  | OutOfRange
  | Impossible
  | NotEnough
  | Invalid
  | TooShort
  | TooLong
  | BadFormat
deriving DecidableEq, Repr

/-- chrono's `impl Display for ParseError`. -/
def ParseError.display (e : ParseError) : String :=
  match e with
  | ParseError.OutOfRange => "input is out of range"
  | ParseError.Impossible => "no possible date and time matching input"
  | ParseError.NotEnough => "input is not enough for unique date and time"
  | ParseError.Invalid => "input contains invalid characters"
  | ParseError.TooShort => "premature end of input"
  | ParseError.TooLong => "trailing input"
  | ParseError.BadFormat => "bad or unsupported format string"

/-- The numeric value of an ASCII digit character. -/
def charVal (c : Char) : Nat := c.toNat - 48

/-- Digit-consumption loop of chrono's `scan::number`: consume up to `max`
leading digits, accumulating the value; a non-digit before `min` digits have
been consumed is invalid (`minLeft` counts the digits still required). -/
def scanNumGo (minLeft max acc : Nat) (cs : List Char) :
    Except ParseError (Nat × List Char) :=
  match max, cs with
  | 0, _ => Except.ok (acc, cs)
  | _ + 1, [] => Except.ok (acc, [])
  | m + 1, c :: rest =>
    if c.isDigit then scanNumGo (minLeft - 1) m (acc * 10 + charVal c) rest
    else if 0 < minLeft then Except.error ParseError.Invalid
    else Except.ok (acc, c :: rest)

/-- chrono's `scan::number(s, min, max)`: fewer than `min` characters in the
input is premature end of input; otherwise consume up to `max` digits.
(The source accumulates in `i64`; the widths used here, at most 9, cannot
overflow it.) -/
def scanNum (min max : Nat) (cs : List Char) :
    Except ParseError (Nat × List Char) :=
  if cs.length < min then Except.error ParseError.TooShort
  else scanNumGo min max 0 cs

/-- chrono's `scan::char`: consume one expected literal character. -/
def scanChar (c : Char) (cs : List Char) : Except ParseError (List Char) :=
  match cs with
  | [] => Except.error ParseError.TooShort
  | x :: rest => if x = c then Except.ok rest else Except.error ParseError.Invalid

/-- chrono's `scan::nanosecond`: one to nine fractional digits scaled to
nanoseconds, any further digits consumed and discarded. -/
def scanNanosecond (cs : List Char) : Except ParseError (Nat × List Char) :=
  match scanNum 1 9 cs with
  | Except.error e => Except.error e
  | Except.ok (v, rest) =>
      Except.ok (v * 10 ^ (9 - (cs.length - rest.length)),
        rest.dropWhile Char.isDigit)

/-- The fractional-second step of chrono's `parse_rfc3339`: when the input
starts with a dot, scan nanoseconds; otherwise the nanoseconds stay zero and
nothing is consumed. -/
def scanFrac (cs : List Char) : Except ParseError (Nat × List Char) :=
  match cs with
  | '.' :: r => scanNanosecond r
  | _ => Except.ok (0, cs)

/-- chrono's `scan::timezone_offset` as invoked by `parse_rfc3339`: the zulu
designator (upper or lower case) or a sign, two-digit hours, a mandatory
colon and two-digit minutes, the minutes below 60. -/
def scanOffset (cs : List Char) : Except ParseError (Int × List Char) :=
  match cs with
  | [] => Except.error ParseError.TooShort
  | c :: rest =>
    if c = 'Z' ∨ c = 'z' then Except.ok (0, rest)
    else if c = '+' ∨ c = '-' then
      match scanNum 2 2 rest with
      | Except.error e => Except.error e
      | Except.ok (h, cs1) =>
        match scanChar ':' cs1 with
        | Except.error e => Except.error e
        | Except.ok cs2 =>
          match scanNum 2 2 cs2 with
          | Except.error e => Except.error e
          | Except.ok (m, cs3) =>
            if 60 ≤ m then Except.error ParseError.OutOfRange
            else
              let v : Int := (h : Int) * 3600 + (m : Int) * 60
              Except.ok (if c = '-' then -v else v, cs3)
    else Except.error ParseError.Invalid

/-- The calendar/clock validation chrono performs when converting the parsed
fields into a `DateTime` (`Parsed::to_datetime`, via
`NaiveDate::from_ymd_opt` and `NaiveTime::from_hms_nano_opt`): month, day,
hour, minute and second must be in range, and a leap second `60` is folded
into chrono's representation, second 59 with the nanoseconds pushed past
10^9. -/
def toDateTime (y mo d h mi se nano : Nat) (off : Int) :
    Except ParseError DateTimeFixed :=
  if 1 ≤ mo ∧ mo ≤ 12 ∧ 1 ≤ d ∧ d ≤ daysInMonth (y : Int) mo
      ∧ h ≤ 23 ∧ mi ≤ 59 ∧ se ≤ 60 then
    if se = 60 then
      Except.ok ⟨(y : Int), mo, d, h, mi, 59, nano + 1000000000, off⟩
    else
      Except.ok ⟨(y : Int), mo, d, h, mi, se, nano, off⟩
  else Except.error ParseError.OutOfRange

/-- chrono's `DateTime::parse_from_rfc3339` (the strict rfc3339 scanner
`parse_rfc3339` followed by the trailing-input check and
`Parsed::to_datetime`): four-digit year, two-digit month and day, a date/time
separator `T`, `t` or space, two-digit hour, minute and second, optional
fractional seconds, and a zulu or signed numeric offset strictly below 24
hours in magnitude. -/
def parseFromRfc3339 (cs : List Char) : Except ParseError DateTimeFixed :=
  match scanNum 4 4 cs with
  | Except.error e => Except.error e
  | Except.ok (y, cs) =>
  match scanChar '-' cs with
  | Except.error e => Except.error e
  | Except.ok cs =>
  match scanNum 2 2 cs with
  | Except.error e => Except.error e
  | Except.ok (mo, cs) =>
  match scanChar '-' cs with
  | Except.error e => Except.error e
  | Except.ok cs =>
  match scanNum 2 2 cs with
  | Except.error e => Except.error e
  | Except.ok (d, cs) =>
  match cs with
  | [] => Except.error ParseError.TooShort
  | sep :: cs =>
  if sep = 'T' ∨ sep = 't' ∨ sep = ' ' then
  match scanNum 2 2 cs with
  | Except.error e => Except.error e
  | Except.ok (h, cs) =>
  match scanChar ':' cs with
  | Except.error e => Except.error e
  | Except.ok cs =>
  match scanNum 2 2 cs with
  | Except.error e => Except.error e
  | Except.ok (mi, cs) =>
  match scanChar ':' cs with
  | Except.error e => Except.error e
  | Except.ok cs =>
  match scanNum 2 2 cs with
  | Except.error e => Except.error e
  | Except.ok (se, cs) =>
  match scanFrac cs with
  | Except.error e => Except.error e
  | Except.ok (nano, cs) =>
  match scanOffset cs with
  | Except.error e => Except.error e
  | Except.ok (off, cs) =>
  if off ≤ -86400 ∨ 86400 ≤ off then Except.error ParseError.OutOfRange
  else if cs ≠ [] then Except.error ParseError.TooLong
  else toDateTime y mo d h mi se nano off
  else Except.error ParseError.Invalid

/-- Whether a character list is empty or starts with a non-digit (the
condition under which a digit scan stops exactly at a boundary). -/
def nonDigitStart (cs : List Char) : Bool :=
  match cs with
  | [] => true
  | c :: _ => !c.isDigit

/-- The offset actually recovered after writing an offset through the
rfc3339 offset field, which carries only hours and minutes: the sub-minute
part of the offset's magnitude is dropped. -/
def truncOffset (off : Int) : Int :=
  let a : Nat := if off < 0 then (-off).toNat else off.toNat
  let v : Int := ((a / 3600) : Nat) * 3600 + ((a / 60 % 60) : Nat) * 60
  if off < 0 then -v else v

/-- Whether `pat` occurs as a contiguous run inside `s`. -/
def listContains (pat : List Char) : List Char → Bool
  | [] => pat.isEmpty
  | c :: t => pat.isPrefixOf (c :: t) || listContains pat t

/-- The denotation of an RFC 3339 offset field: the zulu designator (upper or
lower case, denoting offset zero) or a sign with two-digit hours, a colon and
two-digit minutes within their calendar ranges.  Taken from RFC 3339's
`time-offset` production (`"Z" / time-numoffset`); ABNF literals are case
insensitive. -/
def OffsetTailDenotes (tail : List Char) (off : Int) : Prop :=
  (tail = ['Z'] ∧ off = 0) ∨ (tail = ['z'] ∧ off = 0) ∨
  (∃ sg oh om, (sg = '+' ∨ sg = '-') ∧ oh ≤ 23 ∧ om ≤ 59 ∧
    tail = sg :: (padNum 2 oh ++ ':' :: padNum 2 om) ∧
    off = (if sg = '-' then -((oh : Int) * 3600 + (om : Int) * 60)
           else (oh : Int) * 3600 + (om : Int) * 60))

/-- An RFC 3339 `time-secfrac` or its absence: nothing, or a dot followed by
one or more digits. -/
def FracOk (frac : List Char) : Prop :=
  frac = [] ∨ ∃ ds, frac = '.' :: ds ∧ ds ≠ [] ∧ ds.all Char.isDigit = true

/-- The shape of an RFC 3339 `date-time` string, with the separator drawn
from `seps`, together with the offset its offset field denotes.  Fixed-width
zero-padded numeric fields are exactly the images of `padNum`, so this
existential enumerates precisely the strings of the grammar with in-range
field values (RFC 3339 sections 5.6 and 5.7: month 01-12, day bounded by the
month's length, hour 00-23, minute 00-59, second 00-60 with 60 the leap
second).  With `seps = ['T', 't']` this is the RFC 3339 grammar itself
(`T` case insensitive); adding a space models chrono's lenient separator. -/
def Rfc3339Shape (seps : List Char) (cs : List Char) (off : Int) : Prop :=
  ∃ y mo d h mi se sep frac tail,
    cs = padNum 4 y ++ ('-' :: (padNum 2 mo ++ ('-' :: (padNum 2 d
      ++ (sep :: (padNum 2 h ++ (':' :: (padNum 2 mi
      ++ (':' :: (padNum 2 se ++ (frac ++ tail))))))))))) ∧
    sep ∈ seps ∧
    y ≤ 9999 ∧ 1 ≤ mo ∧ mo ≤ 12 ∧ 1 ≤ d ∧ d ≤ daysInMonth (y : Int) mo ∧
    h ≤ 23 ∧ mi ≤ 59 ∧ se ≤ 60 ∧
    FracOk frac ∧ OffsetTailDenotes tail off

/-- A syntactically valid RFC 3339 timestamp-with-offset string, and the
offset written in its text. -/
def IsRfc3339 (cs : List Char) (off : Int) : Prop :=
  Rfc3339Shape ['T', 't'] cs off

/-- The lenient dialect chrono's rfc3339 scanner reads: RFC 3339 with the
date/time separator also allowed to be a space. -/
def IsLenientRfc3339 (cs : List Char) : Prop :=
  ∃ off, Rfc3339Shape ['T', 't', ' '] cs off

/-- A JSON value, as handled by the serde_json collaborator (numbers are
modelled as integers; the codec never reads a number's value). -/
inductive Json where
  | null
  | boolean (b : Bool)
  | num (n : Int)
  | str (s : String)
  | arr (xs : List Json)
  | obj (fields : List (String × Json))

/-- serde's `Unexpected` description of a non-string JSON value, used in the
`invalid_type` error produced by the visitor's default methods. -/
def Json.unexpectedDesc (v : Json) : String :=
  match v with
  | Json.null => "unit value"
  | Json.boolean _ => "boolean"
  | Json.num _ => "integer"
  | Json.str _ => "string"
  | Json.arr _ => "sequence"
  | Json.obj _ => "map"

/-- A serde deserialization error: `Error::custom` (used by the source's
`visit_str`) or the `invalid_type` error the default visitor methods raise. -/
inductive DeError where
  | custom (msg : String)
  | invalidType (unexpected expected : String)
deriving DecidableEq, Repr

namespace Iso8601

/-- `serialize` from `src/v3/recordings/iso8601.rs`, instantiated at the JSON
serializer: `serializer.serialize_str(&date_time.to_rfc3339())` produces the
JSON string holding the rfc3339 text. -/
def serialize (dt : DateTimeFixed) : Json :=
  Json.str (String.mk (toRfc3339 dt))

/-- `deserialize` from `src/v3/recordings/iso8601.rs`, instantiated at the
JSON deserializer: `deserialize_str` hands a JSON string to the visitor's
`visit_str`, which runs `DateTime::parse_from_rfc3339` and maps a failure to
`Error::custom(format!("invaild timestamp {:?}: {}", v, e))` (the typo is the
source's); the visitor implements no other `visit_*` method, so every
non-string JSON value falls through to serde's default methods, which raise
an `invalid_type` error against the visitor's expectation text. -/
def deserialize (v : Json) : Except DeError DateTimeFixed :=
  match v with
  | Json.str s =>
      match parseFromRfc3339 s.data with
      | Except.ok dt => Except.ok dt
      | Except.error e => Except.error (DeError.custom
          ("invaild timestamp " ++ rustDebugString s ++ ": " ++ e.display))
  | other => Except.error (DeError.invalidType other.unexpectedDesc "an ISO8601 timestamp")

end Iso8601

/-! ## Claim theorems for the error taxonomy -/

/-- C1: the classification From RawJsonApiError for ApiError maps code 1000 to
InvalidParameter, 2001 to AccessForbidden, 2002 to UnsupportedHttpMethod,
2003 to UnsupportedApiVersion, 2004 to UnsupportedApiMethod, 4000 to
InvalidJsonFormat, 4002 to RequiredParameterIsMissing, 8000 to InternalError,
and every other code to OtherError carrying the original RawJsonApiError with
its code and optional message unchanged. -/
theorem apiError_fromRaw_classification (c : Nat) (m : Option String) :
    (c = 1000 → ApiError.fromRaw ⟨c, m⟩ = ApiError.InvalidParameter) ∧
    (c = 2001 → ApiError.fromRaw ⟨c, m⟩ = ApiError.AccessForbidden) ∧
    (c = 2002 → ApiError.fromRaw ⟨c, m⟩ = ApiError.UnsupportedHttpMethod) ∧
    (c = 2003 → ApiError.fromRaw ⟨c, m⟩ = ApiError.UnsupportedApiVersion) ∧
    (c = 2004 → ApiError.fromRaw ⟨c, m⟩ = ApiError.UnsupportedApiMethod) ∧
    (c = 4000 → ApiError.fromRaw ⟨c, m⟩ = ApiError.InvalidJsonFormat) ∧
    (c = 4002 → ApiError.fromRaw ⟨c, m⟩ = ApiError.RequiredParameterIsMissing) ∧
    (c = 8000 → ApiError.fromRaw ⟨c, m⟩ = ApiError.InternalError) ∧
    (c ∉ ([1000, 2001, 2002, 2003, 2004, 4000, 4002, 8000] : List Nat) →
      ApiError.fromRaw ⟨c, m⟩ = ApiError.OtherError ⟨c, m⟩) := by
  refine ⟨?_, ?_, ?_, ?_, ?_, ?_, ?_, ?_, ?_⟩ <;> intro h
  case _ => subst h; rfl
  case _ => subst h; rfl
  case _ => subst h; rfl
  case _ => subst h; rfl
  case _ => subst h; rfl
  case _ => subst h; rfl
  case _ => subst h; rfl
  case _ => subst h; rfl
  case _ =>
    simp only [List.mem_cons, List.not_mem_nil, or_false, not_or] at h
    obtain ⟨h1, h2, h3, h4, h5, h6, h7, h8⟩ := h
    unfold ApiError.fromRaw
    split <;> simp_all

/-- Witness for C1 at the escape case: the server returning code 9999 with no
message classifies to `OtherError` preserving both fields. -/
theorem apiError_fromRaw_classification_witness :
    ApiError.fromRaw ⟨9999, none⟩ = ApiError.OtherError ⟨9999, none⟩ :=
  (apiError_fromRaw_classification 9999 none).2.2.2.2.2.2.2.2 (by decide)

/-- C2: map_404_to_unsupported_feature returns Err(UnsupportedFeature) when
the input is Err(BadStatusCodeError(404)) and returns the input unchanged in
every other case (any Ok value, any other status code, any non-status
variant). -/
theorem map404_spec (T TE : Type) (r : Except (Error TE) T) :
    map404ToUnsupportedFeature
        (Except.error (Error.BadStatusCodeError 404) : Except (Error TE) T)
      = Except.error Error.UnsupportedFeature ∧
    (r ≠ Except.error (Error.BadStatusCodeError 404) →
      map404ToUnsupportedFeature r = r) := by
  constructor
  · rfl
  · intro h
    unfold map404ToUnsupportedFeature
    split
    · simp_all
    · rfl

/-- Witness for C2: the 404 rewrite fires, and an Ok value passes through
unchanged. -/
theorem map404_spec_witness :
    map404ToUnsupportedFeature
        (Except.error (Error.BadStatusCodeError 404) : Except (Error Unit) Nat)
      = Except.error Error.UnsupportedFeature ∧
    map404ToUnsupportedFeature (Except.ok 3 : Except (Error Unit) Nat)
      = Except.ok 3 :=
  ⟨(map404_spec Nat Unit (Except.ok 3)).1,
   (map404_spec Nat Unit (Except.ok 3)).2 (by decide)⟩

/-- C4: map_404_to_unsupported_feature is idempotent: applying it twice yields
the same result as applying it once, for every input result value. -/
theorem map404_idempotent (T TE : Type) (r : Except (Error TE) T) :
    map404ToUnsupportedFeature (map404ToUnsupportedFeature r)
      = map404ToUnsupportedFeature r := by
  unfold map404ToUnsupportedFeature
  split
  · rename_i heq
    split at heq
    · simp at heq
    · simp_all
  · rfl

/-- C5: a JSON-decoder failure converts into
Error::UnparseableResponseError(JsonDeError(native error)) and an XML-decoder
failure into Error::UnparseableResponseError(XmlDeError(native error));
the conversions preserve the native error, produce no other variant, and the
language-level lifting (the question-mark operator acting through From) works
on whole decode results with no manual wrapping: errors are wrapped exactly
this way and successes pass through untouched. -/
theorem decode_error_classification (TE T : Type) (je : SerdeJsonError)
    (xe : QuickXmlDeError) :
    (Error.fromSerdeJson je
      = (Error.UnparseableResponseError (UnparseableResponseError.JsonDeError je)
          : Error TE)) ∧
    (Error.fromQuickXml xe
      = (Error.UnparseableResponseError (UnparseableResponseError.XmlDeError xe)
          : Error TE)) ∧
    (liftJsonResult (Except.error je)
      = (Except.error
          (Error.UnparseableResponseError (UnparseableResponseError.JsonDeError je))
          : Except (Error TE) T)) ∧
    (liftXmlResult (Except.error xe)
      = (Except.error
          (Error.UnparseableResponseError (UnparseableResponseError.XmlDeError xe))
          : Except (Error TE) T)) ∧
    (∀ v : T, liftJsonResult (Except.ok v) = (Except.ok v : Except (Error TE) T)) ∧
    (∀ v : T, liftXmlResult (Except.ok v) = (Except.ok v : Except (Error TE) T)) :=
  ⟨rfl, rfl, rfl, rfl, fun _ => rfl, fun _ => rfl⟩

/-- C6 counterexample: the claim says the Other variant renders its static
string verbatim, but the source renders the prefix "error: " followed by the
string, so the rendering of Other "boom" is not the string "boom". -/
theorem display_other_not_verbatim :
    Error.display (fun (_ : Unit) => "") (fun sc => toString sc) (fun _ => "")
        (Error.Other "boom") = "error: boom"
    ∧ ("error: boom" : String) ≠ "boom" := by
  exact ⟨rfl, by decide⟩

/-- C6 (amended): Display rendering is total (this function cannot fail) and
produces the fixed per-variant text: TransportError renders "transport
error: " followed by the transport error's own display, BadStatusCodeError
renders "bad status code: " followed by the status display, UnsupportedFeature
renders "this device does not support that feature", and Other renders
"error: " followed by its static string verbatim. -/
theorem display_renders (TE : Type) (showTE : TE → String)
    (showStatus : Nat → String) (debugCT : Option HeaderValue → String)
    (te : TE) (sc : Nat) (s : String) :
    Error.display showTE showStatus debugCT (Error.TransportError te)
      = "transport error: " ++ showTE te ∧
    Error.display showTE showStatus debugCT (Error.BadStatusCodeError sc)
      = "bad status code: " ++ showStatus sc ∧
    Error.display showTE showStatus debugCT Error.UnsupportedFeature
      = "this device does not support that feature" ∧
    Error.display showTE showStatus debugCT (Error.Other s)
      = "error: " ++ s :=
  ⟨rfl, rfl, rfl, rfl⟩

/-! ## Digit, scanner and formatter lemmas -/

theorem char_eq_of_toNat_eq (c d : Char) (h : c.toNat = d.toNat) : c = d :=
  Char.ext (UInt32.ext h)

theorem digitChar_isDigit (d : Nat) : (digitChar d).isDigit = true := by
  match d with
  | 0 | 1 | 2 | 3 | 4 | 5 | 6 | 7 | 8 => rfl
  | n + 9 => rfl

theorem charVal_digitChar (d : Nat) (h : d < 10) : charVal (digitChar d) = d := by
  interval_cases d <;> rfl

theorem isDigit_bounds (c : Char) (h : c.isDigit = true) :
    48 ≤ c.toNat ∧ c.toNat ≤ 57 := by
  simp only [Char.isDigit, Bool.and_eq_true, decide_eq_true_eq] at h
  obtain ⟨h1, h2⟩ := h
  exact ⟨h1, h2⟩

theorem digitChar_charVal (c : Char) (h : c.isDigit = true) :
    digitChar (charVal c) = c := by
  have hb := isDigit_bounds c h
  have h10 : c.toNat = 48 ∨ c.toNat = 49 ∨ c.toNat = 50 ∨ c.toNat = 51 ∨ c.toNat = 52
      ∨ c.toNat = 53 ∨ c.toNat = 54 ∨ c.toNat = 55 ∨ c.toNat = 56 ∨ c.toNat = 57 := by
    omega
  have hc : c = digitChar (c.toNat - 48) := by
    rcases h10 with h | h | h | h | h | h | h | h | h | h <;>
      (apply char_eq_of_toNat_eq; rw [h]; rfl)
  exact hc.symm

theorem padNum_length (w n : Nat) : (padNum w n).length = w := by
  induction w generalizing n with
  | zero => rfl
  | succ w ih => simp [padNum, ih]

theorem scanNumGo_pad (w : Nat) : ∀ (ml acc n : Nat) (rest : List Char),
    scanNumGo ml w acc (padNum w n ++ rest)
      = Except.ok (acc * 10 ^ w + n % 10 ^ w, rest) := by
  induction w with
  | zero =>
    intro ml acc n rest
    simp [padNum, scanNumGo, Nat.mod_one]
  | succ w ih =>
    intro ml acc n rest
    have hd := digitChar_isDigit (n / 10 ^ w % 10)
    simp only [padNum, List.cons_append, scanNumGo, hd, if_true, List.append_eq]
    rw [charVal_digitChar _ (Nat.mod_lt _ (by norm_num)), ih]
    congr 2
    rw [pow_succ, Nat.mod_mul]
    ring

theorem scanNum_pad (w n : Nat) (rest : List Char) :
    scanNum w w (padNum w n ++ rest) = Except.ok (n % 10 ^ w, rest) := by
  unfold scanNum
  rw [if_neg, scanNumGo_pad]
  · simp
  · simp [padNum_length]

theorem scanNumGo_pad_stop (w : Nat) : ∀ (max ml acc n : Nat) (rest : List Char),
    w ≤ max → ml ≤ w → nonDigitStart rest = true →
    scanNumGo ml max acc (padNum w n ++ rest)
      = Except.ok (acc * 10 ^ w + n % 10 ^ w, rest) := by
  induction w with
  | zero =>
    intro max ml acc n rest hwm hml hnd
    have hml0 : ml = 0 := by omega
    subst hml0
    cases max with
    | zero => simp [padNum, scanNumGo, Nat.mod_one]
    | succ m =>
      cases rest with
      | nil => simp [padNum, scanNumGo, Nat.mod_one]
      | cons c t =>
        simp only [nonDigitStart, Bool.not_eq_true'] at hnd
        simp [padNum, scanNumGo, hnd, Nat.mod_one]
  | succ w ih =>
    intro max ml acc n rest hwm hml hnd
    cases max with
    | zero => omega
    | succ m =>
      have hd := digitChar_isDigit (n / 10 ^ w % 10)
      simp only [padNum, List.cons_append, scanNumGo, hd, if_true, List.append_eq]
      rw [charVal_digitChar _ (Nat.mod_lt _ (by norm_num)),
        ih m (ml - 1) _ n rest (by omega) (by omega) hnd]
      congr 2
      rw [pow_succ, Nat.mod_mul]
      ring

theorem scanNum_pad_stop (min max w n : Nat) (rest : List Char)
    (_hmin : 1 ≤ min) (hminw : min ≤ w) (hw : w ≤ max)
    (hnd : nonDigitStart rest = true) :
    scanNum min max (padNum w n ++ rest) = Except.ok (n % 10 ^ w, rest) := by
  unfold scanNum
  rw [if_neg, scanNumGo_pad_stop w max min 0 n rest hw hminw hnd]
  · simp
  · simp [padNum_length]
    omega

theorem scanChar_cons (c : Char) (rest : List Char) :
    scanChar c (c :: rest) = Except.ok rest := by
  simp [scanChar]

theorem dropWhile_nonDigitStart (rest : List Char)
    (h : nonDigitStart rest = true) :
    rest.dropWhile Char.isDigit = rest := by
  cases rest with
  | nil => rfl
  | cons c t =>
    simp only [nonDigitStart, Bool.not_eq_true'] at h
    simp [List.dropWhile, h]

theorem scanNanosecond_pad (w v : Nat) (rest : List Char)
    (h1 : 1 ≤ w) (h9 : w ≤ 9) (hv : v < 10 ^ w)
    (hnd : nonDigitStart rest = true) :
    scanNanosecond (padNum w v ++ rest)
      = Except.ok (v * 10 ^ (9 - w), rest) := by
  unfold scanNanosecond
  rw [scanNum_pad_stop 1 9 w v rest (by omega) h1 h9 hnd]
  dsimp only
  have hlen : (padNum w v ++ rest).length - rest.length = w := by
    simp [padNum_length]
  rw [hlen, dropWhile_nonDigitStart rest hnd, Nat.mod_eq_of_lt hv]

theorem scanFrac_fracPart (nano : Nat) (rest : List Char)
    (hn : nano < 1000000000)
    (hnd : nonDigitStart rest = true) (hdot : ∀ t, rest ≠ '.' :: t) :
    scanFrac (fracPart nano ++ rest) = Except.ok (nano, rest) := by
  by_cases h0 : nano = 0
  · subst h0
    simp only [fracPart, if_pos rfl, List.nil_append]
    unfold scanFrac
    split
    · rename_i t heq
      exact absurd heq (hdot t)
    · rfl
  · by_cases h6 : nano % 1000000 = 0
    · have : fracPart nano = '.' :: padNum 3 (nano / 1000000) := by
        simp [fracPart, h0, h6]
      rw [this]
      show scanNanosecond (padNum 3 (nano / 1000000) ++ rest) = _
      rw [scanNanosecond_pad 3 _ rest (by omega) (by omega) (by omega) hnd]
      congr 2
      omega
    · by_cases h3 : nano % 1000 = 0
      · have : fracPart nano = '.' :: padNum 6 (nano / 1000) := by
          simp [fracPart, h0, h6, h3]
        rw [this]
        show scanNanosecond (padNum 6 (nano / 1000) ++ rest) = _
        rw [scanNanosecond_pad 6 _ rest (by omega) (by omega) (by omega) hnd]
        congr 2
        omega
      · have : fracPart nano = '.' :: padNum 9 nano := by
          simp [fracPart, h0, h6, h3]
        rw [this]
        show scanNanosecond (padNum 9 nano ++ rest) = _
        rw [scanNanosecond_pad 9 _ rest (by omega) (by omega) (by omega) hnd]
        congr 2
        omega

theorem offsetPart_nonDigitStart (off : Int) :
    nonDigitStart (offsetPart off) = true := by
  by_cases hneg : off < 0 <;> simp [offsetPart, hneg, nonDigitStart]

theorem offsetPart_ne_dot (off : Int) (t : List Char) :
    offsetPart off ≠ '.' :: t := by
  by_cases hneg : off < 0 <;> simp [offsetPart, hneg]

theorem scanOffset_offsetPart (off : Int) (hlo : -86400 < off)
    (hhi : off < 86400) :
    scanOffset (offsetPart off) = Except.ok (truncOffset off, []) := by
  by_cases hneg : off < 0
  · have ha : (-off).toNat < 86400 := by omega
    have e1 : (-off).toNat / 3600 % 10 ^ 2 = (-off).toNat / 3600 :=
      Nat.mod_eq_of_lt (by omega)
    have e2 : (-off).toNat / 60 % 60 % 10 ^ 2 = (-off).toNat / 60 % 60 :=
      Nat.mod_eq_of_lt (by omega)
    have s1 := scanNum_pad 2 ((-off).toNat / 3600)
      (':' :: (padNum 2 ((-off).toNat / 60 % 60) ++ []))
    have s2 := scanNum_pad 2 ((-off).toNat / 60 % 60) ([] : List Char)
    rw [e1] at s1
    rw [e2] at s2
    have hm : ¬ (60 ≤ (-off).toNat / 60 % 60) := by omega
    have hz : ¬ (('-' : Char) = 'Z' ∨ ('-' : Char) = 'z') := by decide
    have hpm : ('-' : Char) = '+' ∨ ('-' : Char) = '-' := by decide
    have hsplit : offsetPart off
        = '-' :: (padNum 2 ((-off).toNat / 3600)
            ++ ':' :: (padNum 2 ((-off).toNat / 60 % 60) ++ [])) := by
      simp [offsetPart, hneg]
    rw [hsplit]
    simp only [scanOffset, hz, hpm, s1, scanChar_cons, s2, hm,
      if_true, if_false, ite_true, ite_false]
    simp only [truncOffset, if_pos hneg]
    norm_num
  · have ha : off.toNat < 86400 := by omega
    have e1 : off.toNat / 3600 % 10 ^ 2 = off.toNat / 3600 :=
      Nat.mod_eq_of_lt (by omega)
    have e2 : off.toNat / 60 % 60 % 10 ^ 2 = off.toNat / 60 % 60 :=
      Nat.mod_eq_of_lt (by omega)
    have s1 := scanNum_pad 2 (off.toNat / 3600)
      (':' :: (padNum 2 (off.toNat / 60 % 60) ++ []))
    have s2 := scanNum_pad 2 (off.toNat / 60 % 60) ([] : List Char)
    rw [e1] at s1
    rw [e2] at s2
    have hm : ¬ (60 ≤ off.toNat / 60 % 60) := by omega
    have hz : ¬ (('+' : Char) = 'Z' ∨ ('+' : Char) = 'z') := by decide
    have hpm : ('+' : Char) = '+' ∨ ('+' : Char) = '-' := by decide
    have hmm : ¬ (('+' : Char) = '-') := by decide
    have hsplit : offsetPart off
        = '+' :: (padNum 2 (off.toNat / 3600)
            ++ ':' :: (padNum 2 (off.toNat / 60 % 60) ++ [])) := by
      simp [offsetPart, hneg]
    rw [hsplit]
    simp only [scanOffset, hz, hpm, hmm, s1, scanChar_cons, s2, hm,
      if_true, if_false, ite_true, ite_false, true_or, or_false, or_true,
      false_or]
    simp only [truncOffset, if_neg hneg]

theorem padNum_split4 (n : Nat) :
    padNum 2 (n / 100) ++ padNum 2 (n % 100) = padNum 4 n := by
  simp only [padNum, List.cons_append, List.nil_append, List.cons.injEq, and_true]
  refine ⟨congrArg digitChar (by omega), congrArg digitChar (by omega),
    congrArg digitChar (by omega), congrArg digitChar (by omega)⟩

theorem yearPart_in_range (y : Int) (h0 : 0 ≤ y) (h9 : y ≤ 9999) :
    yearPart y = padNum 4 y.toNat := by
  rw [yearPart, if_pos ⟨h0, h9⟩, padNum_split4]

/-- Parsing the rfc3339 rendering of a valid timestamp with year 0-9999
recovers every field exactly, except that the offset comes back with its
sub-minute component truncated (the offset field of the wire format carries
only hours and minutes). -/
theorem parse_toRfc3339 (dt : DateTimeFixed)
    (hv : dt.isValid) (hy0 : 0 ≤ dt.year) (hy : dt.year ≤ 9999) :
    parseFromRfc3339 (toRfc3339 dt)
      = Except.ok { dt with offset := truncOffset dt.offset } := by
  obtain ⟨h1, h2, h3, h4, h5, h6, h7, h8, h9, h10⟩ := hv
  have s0 : yearPart dt.year = padNum 4 dt.year.toNat :=
    yearPart_in_range dt.year hy0 hy
  have sy : ∀ rest, scanNum 4 4 (padNum 4 dt.year.toNat ++ rest)
      = Except.ok (dt.year.toNat, rest) := by
    intro rest
    rw [scanNum_pad, Nat.mod_eq_of_lt (by omega)]
  have smo : ∀ rest, scanNum 2 2 (padNum 2 dt.month ++ rest)
      = Except.ok (dt.month, rest) := by
    intro rest
    rw [scanNum_pad, Nat.mod_eq_of_lt (by omega)]
  have sd : ∀ rest, scanNum 2 2 (padNum 2 dt.day ++ rest)
      = Except.ok (dt.day, rest) := by
    intro rest
    have hd31 : dt.day ≤ 31 := by
      have : daysInMonth dt.year dt.month ≤ 31 := by
        unfold daysInMonth
        dsimp only
        split <;> first
        | omega
        | (split <;> omega)
      omega
    rw [scanNum_pad, Nat.mod_eq_of_lt (by omega)]
  have sh : ∀ rest, scanNum 2 2 (padNum 2 dt.hour ++ rest)
      = Except.ok (dt.hour, rest) := by
    intro rest
    rw [scanNum_pad, Nat.mod_eq_of_lt (by omega)]
  have smi : ∀ rest, scanNum 2 2 (padNum 2 dt.minute ++ rest)
      = Except.ok (dt.minute, rest) := by
    intro rest
    rw [scanNum_pad, Nat.mod_eq_of_lt (by omega)]
  have sse : ∀ rest, scanNum 2 2 (padNum 2 dt.second ++ rest)
      = Except.ok (dt.second, rest) := by
    intro rest
    rw [scanNum_pad, Nat.mod_eq_of_lt (by omega)]
  have sfrac : scanFrac (fracPart dt.nano ++ offsetPart dt.offset)
      = Except.ok (dt.nano, offsetPart dt.offset) :=
    scanFrac_fracPart dt.nano (offsetPart dt.offset) h8
      (offsetPart_nonDigitStart dt.offset) (offsetPart_ne_dot dt.offset)
  have soff : scanOffset (offsetPart dt.offset)
      = Except.ok (truncOffset dt.offset, []) :=
    scanOffset_offsetPart dt.offset h9 h10
  have htrunc : ¬ (truncOffset dt.offset ≤ -86400 ∨ 86400 ≤ truncOffset dt.offset) := by
    unfold truncOffset
    by_cases hneg : dt.offset < 0 <;> simp only [hneg, if_true, if_false,
      ite_true, ite_false] <;> omega
  have hsep : ('T' : Char) = 'T' ∨ ('T' : Char) = 't' ∨ ('T' : Char) = ' ' := by
    decide
  have hnil : ¬ (([] : List Char) ≠ []) := fun h => h rfl
  have hcast : ((dt.year.toNat : Int)) = dt.year := Int.toNat_of_nonneg hy0
  have hcond : 1 ≤ dt.month ∧ dt.month ≤ 12 ∧ 1 ≤ dt.day
      ∧ dt.day ≤ daysInMonth ((dt.year.toNat : Int)) dt.month
      ∧ dt.hour ≤ 23 ∧ dt.minute ≤ 59 ∧ dt.second ≤ 60 := by
    rw [hcast]
    exact ⟨h1, h2, h3, h4, h5, h6, by omega⟩
  have hne60 : ¬ (dt.second = 60) := by omega
  unfold toRfc3339 parseFromRfc3339
  rw [s0, sy]
  dsimp only
  rw [scanChar_cons]
  dsimp only
  rw [smo]
  dsimp only
  rw [scanChar_cons]
  dsimp only
  rw [sd]
  dsimp only
  rw [if_pos hsep]
  rw [sh]
  dsimp only
  rw [scanChar_cons]
  dsimp only
  rw [smi]
  dsimp only
  rw [scanChar_cons]
  dsimp only
  rw [sse]
  dsimp only
  rw [sfrac]
  dsimp only
  rw [soff]
  dsimp only
  rw [if_neg htrunc, if_neg hnil]
  unfold toDateTime
  rw [if_pos hcond, if_neg hne60, hcast]

theorem truncOffset_of_whole_minute (off : Int) (hlo : -86400 < off)
    (hhi : off < 86400) (h60 : off % 60 = 0) : truncOffset off = off := by
  unfold truncOffset
  by_cases hneg : off < 0 <;>
    simp only [hneg, if_true, if_false, ite_true, ite_false] <;> omega

theorem padNum_mem_isDigit (w : Nat) : ∀ (n : Nat) (c : Char),
    c ∈ padNum w n → c.isDigit = true := by
  induction w with
  | zero => intro n c hc; simp [padNum] at hc
  | succ w ih =>
    intro n c hc
    rcases List.mem_cons.mp hc with rfl | hc
    · exact digitChar_isDigit _
    · exact ih n c hc

theorem natDigitsGo_mem_isDigit (fuel : Nat) : ∀ (n : Nat) (acc : List Char)
    (c : Char), (∀ x ∈ acc, x.isDigit = true) → c ∈ natDigitsGo fuel n acc →
    c.isDigit = true := by
  induction fuel with
  | zero => intro n acc c hacc hc; exact hacc c hc
  | succ f ih =>
    intro n acc c hacc hc
    unfold natDigitsGo at hc
    split at hc
    · rcases List.mem_cons.mp hc with rfl | h
      · exact digitChar_isDigit _
      · exact hacc c h
    · refine ih _ _ c ?_ hc
      intro x hx
      rcases List.mem_cons.mp hx with rfl | h
      · exact digitChar_isDigit _
      · exact hacc x h

theorem natDigits_mem_isDigit (n : Nat) (c : Char) (hc : c ∈ natDigits n) :
    c.isDigit = true :=
  natDigitsGo_mem_isDigit (n + 1) n [] c (by simp) hc

theorem zeroPad_mem_isDigit (w : Nat) (ds : List Char) (c : Char)
    (hds : ∀ x ∈ ds, x.isDigit = true) (hc : c ∈ zeroPad w ds) :
    c.isDigit = true := by
  unfold zeroPad at hc
  rcases List.mem_append.mp hc with h | h
  · have := List.eq_of_mem_replicate h
    subst this
    decide
  · exact hds c h

theorem yearPart_mem (y : Int) (c : Char) (hc : c ∈ yearPart y) :
    c.isDigit = true ∨ c = '-' ∨ c = '+' := by
  unfold yearPart at hc
  split at hc
  · exact Or.inl (by
      rcases List.mem_append.mp hc with h | h
      · exact padNum_mem_isDigit 2 _ c h
      · exact padNum_mem_isDigit 2 _ c h)
  · split at hc
    · rcases List.mem_cons.mp hc with rfl | h
      · exact Or.inr (Or.inl rfl)
      · exact Or.inl (zeroPad_mem_isDigit 4 _ c (fun x hx => natDigits_mem_isDigit _ x hx) h)
    · rcases List.mem_cons.mp hc with rfl | h
      · exact Or.inr (Or.inr rfl)
      · exact Or.inl (zeroPad_mem_isDigit 4 _ c (fun x hx => natDigits_mem_isDigit _ x hx) h)

theorem fracPart_mem (nano : Nat) (c : Char) (hc : c ∈ fracPart nano) :
    c.isDigit = true ∨ c = '.' := by
  unfold fracPart at hc
  split at hc
  · simp at hc
  · split at hc
    · rcases List.mem_cons.mp hc with rfl | h
      · exact Or.inr rfl
      · exact Or.inl (padNum_mem_isDigit 3 _ c h)
    · split at hc
      · rcases List.mem_cons.mp hc with rfl | h
        · exact Or.inr rfl
        · exact Or.inl (padNum_mem_isDigit 6 _ c h)
      · rcases List.mem_cons.mp hc with rfl | h
        · exact Or.inr rfl
        · exact Or.inl (padNum_mem_isDigit 9 _ c h)

theorem offsetPart_mem (off : Int) (c : Char) (hc : c ∈ offsetPart off) :
    c.isDigit = true ∨ c = '-' ∨ c = '+' ∨ c = ':' := by
  unfold offsetPart at hc
  rcases List.mem_cons.mp hc with rfl | h
  · by_cases hneg : off < 0
    · simp [hneg]
    · simp [hneg]
  · rcases List.mem_append.mp h with h2 | h2
    · exact Or.inl (padNum_mem_isDigit 2 _ c h2)
    · rcases List.mem_cons.mp h2 with rfl | h3
      · exact Or.inr (Or.inr (Or.inr rfl))
      · exact Or.inl (padNum_mem_isDigit 2 _ c h3)

theorem toRfc3339_mem (dt : DateTimeFixed) (c : Char) (hc : c ∈ toRfc3339 dt) :
    c.isDigit = true ∨ c = '-' ∨ c = '+' ∨ c = ':' ∨ c = 'T' ∨ c = '.' := by
  unfold toRfc3339 at hc
  simp only [List.mem_append, List.mem_cons] at hc
  rcases hc with h | rfl | h | rfl | h | rfl | h | rfl | h | rfl | h | h | h
  · rcases yearPart_mem dt.year c h with h | h | h
    · exact Or.inl h
    · exact Or.inr (Or.inl h)
    · exact Or.inr (Or.inr (Or.inl h))
  · exact Or.inr (Or.inl rfl)
  · exact Or.inl (padNum_mem_isDigit 2 _ c h)
  · exact Or.inr (Or.inl rfl)
  · exact Or.inl (padNum_mem_isDigit 2 _ c h)
  · exact Or.inr (Or.inr (Or.inr (Or.inr (Or.inl rfl))))
  · exact Or.inl (padNum_mem_isDigit 2 _ c h)
  · exact Or.inr (Or.inr (Or.inr (Or.inl rfl)))
  · exact Or.inl (padNum_mem_isDigit 2 _ c h)
  · exact Or.inr (Or.inr (Or.inr (Or.inl rfl)))
  · exact Or.inl (padNum_mem_isDigit 2 _ c h)
  · rcases fracPart_mem dt.nano c h with h | h
    · exact Or.inl h
    · exact Or.inr (Or.inr (Or.inr (Or.inr (Or.inr h))))
  · rcases offsetPart_mem dt.offset c h with h | h | h | h
    · exact Or.inl h
    · exact Or.inr (Or.inl h)
    · exact Or.inr (Or.inr (Or.inl h))
    · exact Or.inr (Or.inr (Or.inr (Or.inl h)))

theorem daysInMonth_le_31 (y : Int) (m : Nat) : daysInMonth y m ≤ 31 := by
  unfold daysInMonth
  dsimp only
  split <;> first
  | omega
  | (split <;> omega)

theorem scanFrac_no_dot (cs : List Char) (hdot : ∀ t, cs ≠ '.' :: t) :
    scanFrac cs = Except.ok (0, cs) := by
  unfold scanFrac
  split
  · rename_i t
    exact absurd rfl (hdot t)
  · rfl

theorem scanNumGo_digits (max : Nat) : ∀ (ml acc : Nat) (ds rest : List Char),
    ds.all Char.isDigit = true → ml ≤ ds.length → nonDigitStart rest = true →
    ∃ v, scanNumGo ml max acc (ds ++ rest)
      = Except.ok (v, ds.drop max ++ rest) := by
  induction max with
  | zero =>
    intro ml acc ds rest _ _ _
    exact ⟨acc, rfl⟩
  | succ m ih =>
    intro ml acc ds rest hds hml hnd
    cases ds with
    | nil =>
      cases rest with
      | nil => exact ⟨acc, rfl⟩
      | cons c t =>
        have hml0 : ml = 0 := by simpa using hml
        subst hml0
        simp only [nonDigitStart, Bool.not_eq_true'] at hnd
        exact ⟨acc, by simp [scanNumGo, hnd]⟩
    | cons c ds2 =>
      simp only [List.all_cons, Bool.and_eq_true] at hds
      obtain ⟨hc, hds2⟩ := hds
      have step : scanNumGo ml (m + 1) acc ((c :: ds2) ++ rest)
          = scanNumGo (ml - 1) m (acc * 10 + charVal c) (ds2 ++ rest) := by
        simp [scanNumGo, hc]
      obtain ⟨v, hv⟩ := ih (ml - 1) (acc * 10 + charVal c) ds2 rest hds2
        (by simp only [List.length_cons] at hml; omega) hnd
      exact ⟨v, by rw [step, hv, List.drop_succ_cons]⟩

theorem dropWhile_digits_append (ds : List Char) : ∀ (rest : List Char),
    ds.all Char.isDigit = true → nonDigitStart rest = true →
    (ds ++ rest).dropWhile Char.isDigit = rest := by
  induction ds with
  | nil => intro rest _ hnd; exact dropWhile_nonDigitStart rest hnd
  | cons c t ih =>
    intro rest hds hnd
    simp only [List.all_cons, Bool.and_eq_true] at hds
    simp [List.dropWhile, hds.1, ih rest hds.2 hnd]

theorem scanNanosecond_digits (ds rest : List Char) (hne : ds ≠ [])
    (hds : ds.all Char.isDigit = true) (hnd : nonDigitStart rest = true) :
    ∃ v, scanNanosecond (ds ++ rest) = Except.ok (v, rest) := by
  obtain ⟨v, hv⟩ := scanNumGo_digits 9 1 0 ds rest hds
    (by cases ds with
      | nil => exact absurd rfl hne
      | cons c t => simp) hnd
  have hdrop : (ds.drop 9).all Char.isDigit = true := by
    rw [List.all_eq_true] at hds ⊢
    intro x hx
    exact hds x (List.mem_of_mem_drop hx)
  unfold scanNanosecond scanNum
  rw [if_neg (by
    cases ds with
    | nil => exact absurd rfl hne
    | cons c t => simp)]
  rw [hv]
  dsimp only
  rw [dropWhile_digits_append (ds.drop 9) rest hdrop hnd]
  exact ⟨_, rfl⟩

theorem offsetTail_nonDigitStart (tail : List Char) (off : Int)
    (h : OffsetTailDenotes tail off) : nonDigitStart tail = true := by
  rcases h with ⟨rfl, _⟩ | ⟨rfl, _⟩ | ⟨sg, oh, om, hsg, _, _, rfl, _⟩
  · rfl
  · rfl
  · rcases hsg with rfl | rfl <;> rfl

theorem offsetTail_ne_dot (tail : List Char) (off : Int)
    (h : OffsetTailDenotes tail off) : ∀ t, tail ≠ '.' :: t := by
  rcases h with ⟨rfl, _⟩ | ⟨rfl, _⟩ | ⟨sg, oh, om, hsg, _, _, rfl, _⟩
  · intro t h; simp at h
  · intro t h; simp at h
  · rcases hsg with rfl | rfl <;> (intro t h; simp at h)

theorem offsetTail_bounds (tail : List Char) (off : Int)
    (h : OffsetTailDenotes tail off) : -86400 < off ∧ off < 86400 := by
  rcases h with ⟨_, rfl⟩ | ⟨_, rfl⟩ | ⟨sg, oh, om, hsg, hoh, hom, _, rfl⟩
  · omega
  · omega
  · rcases hsg with rfl | rfl <;> simp <;> omega

theorem scanOffset_denotes (tail : List Char) (off : Int)
    (htail : OffsetTailDenotes tail off) :
    scanOffset tail = Except.ok (off, []) := by
  rcases htail with ⟨rfl, rfl⟩ | ⟨rfl, rfl⟩ | ⟨sg, oh, om, hsg, hoh, hom, rfl, rfl⟩
  · rfl
  · rfl
  · have s1 := scanNum_pad 2 oh (':' :: padNum 2 om)
    rw [Nat.mod_eq_of_lt (by omega)] at s1
    have s2 := scanNum_pad 2 om ([] : List Char)
    rw [Nat.mod_eq_of_lt (by omega)] at s2
    rw [List.append_nil] at s2
    have hom2 : ¬ (60 ≤ om) := by omega
    rcases hsg with rfl | rfl
    · have hz : ¬ (('+' : Char) = 'Z' ∨ ('+' : Char) = 'z') := by decide
      have hpm : ('+' : Char) = '+' ∨ ('+' : Char) = '-' := by decide
      have hmm : ¬ (('+' : Char) = '-') := by decide
      simp only [scanOffset, hz, hpm, hmm, s1, scanChar_cons, s2, hom2,
        if_true, if_false, ite_true, ite_false, true_or, or_false, or_true,
        false_or]
    · have hz : ¬ (('-' : Char) = 'Z' ∨ ('-' : Char) = 'z') := by decide
      have hpm : ('-' : Char) = '+' ∨ ('-' : Char) = '-' := by decide
      have hmm : (('-' : Char) = '-') := by decide
      simp only [scanOffset, hz, hpm, hmm, s1, scanChar_cons, s2, hom2,
        if_true, if_false, ite_true, ite_false, true_or, or_false, or_true,
        false_or]

theorem charVal_le_9 (c : Char) (h : c.isDigit = true) : charVal c ≤ 9 := by
  have := isDigit_bounds c h
  unfold charVal
  omega

theorem padNum_mod (w : Nat) : ∀ (n : Nat), padNum w (n % 10 ^ w) = padNum w n := by
  induction w with
  | zero => intro n; rfl
  | succ w ih =>
    intro n
    have hp : 0 < 10 ^ w := Nat.pos_pow_of_pos w (by norm_num)
    have hhead : n % 10 ^ (w + 1) / 10 ^ w % 10 = n / 10 ^ w % 10 := by
      rw [pow_succ, Nat.mod_mul]
      rw [Nat.add_mul_div_left _ _ hp, Nat.div_eq_of_lt (Nat.mod_lt _ hp)]
      omega
    have htail : n % 10 ^ (w + 1) % 10 ^ w = n % 10 ^ w := by
      apply Nat.mod_mod_of_dvd
      exact pow_dvd_pow 10 (by omega)
    calc padNum (w + 1) (n % 10 ^ (w + 1))
        = digitChar (n % 10 ^ (w + 1) / 10 ^ w % 10)
            :: padNum w (n % 10 ^ (w + 1)) := rfl
      _ = digitChar (n / 10 ^ w % 10) :: padNum w (n % 10 ^ (w + 1)) := by
          rw [hhead]
      _ = digitChar (n / 10 ^ w % 10) :: padNum w (n % 10 ^ (w + 1) % 10 ^ w) := by
          rw [ih]
      _ = digitChar (n / 10 ^ w % 10) :: padNum w (n % 10 ^ w) := by rw [htail]
      _ = digitChar (n / 10 ^ w % 10) :: padNum w n := by rw [ih]
      _ = padNum (w + 1) n := rfl

theorem scanNumGo_exact_inv (max : Nat) : ∀ (acc v : Nat) (cs rest : List Char),
    scanNumGo max max acc cs = Except.ok (v, rest) → max ≤ cs.length →
    ∃ d, v = acc * 10 ^ max + d ∧ d < 10 ^ max ∧ cs = padNum max d ++ rest := by
  induction max with
  | zero =>
    intro acc v cs rest h _
    refine ⟨0, ?_, by norm_num, ?_⟩
    · cases h; omega
    · cases h; rfl
  | succ m ih =>
    intro acc v cs rest h hlen
    cases cs with
    | nil => simp at hlen
    | cons c t =>
      by_cases hc : c.isDigit
      · have step : scanNumGo (m + 1) (m + 1) acc (c :: t)
            = scanNumGo m m (acc * 10 + charVal c) t := by
          simp [scanNumGo, hc]
        rw [step] at h
        obtain ⟨d2, hv, hd2, ht⟩ := ih (acc * 10 + charVal c) v t rest h
          (by simp at hlen; omega)
        have hcv : charVal c ≤ 9 := charVal_le_9 c hc
        refine ⟨charVal c * 10 ^ m + d2, ?_, ?_, ?_⟩
        · rw [hv, pow_succ]; ring
        · have : charVal c * 10 ^ m + d2 < (charVal c + 1) * 10 ^ m := by
            have := Nat.pos_pow_of_pos m (show 0 < 10 by norm_num)
            nlinarith
          have h2 : (charVal c + 1) * 10 ^ m ≤ 10 * 10 ^ m := by nlinarith
          rw [pow_succ]
          omega
        · have hp : 0 < 10 ^ m := Nat.pos_pow_of_pos m (by norm_num)
          have hdiv : (charVal c * 10 ^ m + d2) / 10 ^ m % 10 = charVal c := by
            rw [mul_comm (charVal c), Nat.mul_add_div hp,
              Nat.div_eq_of_lt hd2, Nat.add_zero, Nat.mod_eq_of_lt (by omega)]
          have hmod : (charVal c * 10 ^ m + d2) % 10 ^ m = d2 := by
            rw [mul_comm (charVal c), Nat.mul_add_mod, Nat.mod_eq_of_lt hd2]
          have hpad : padNum (m + 1) (charVal c * 10 ^ m + d2)
              = digitChar (charVal c) :: padNum m d2 := by
            show digitChar ((charVal c * 10 ^ m + d2) / 10 ^ m % 10)
                :: padNum m (charVal c * 10 ^ m + d2) = _
            rw [hdiv]
            congr 1
            rw [← padNum_mod m (charVal c * 10 ^ m + d2), hmod]
          rw [hpad, digitChar_charVal c hc, ht]
          rfl
      · exfalso
        have : scanNumGo (m + 1) (m + 1) acc (c :: t) = Except.error ParseError.Invalid := by
          simp [scanNumGo, hc]
        rw [this] at h
        exact Except.noConfusion h

theorem scanNum_exact_inv (w : Nat) (cs rest : List Char) (v : Nat)
    (h : scanNum w w cs = Except.ok (v, rest)) :
    cs = padNum w v ++ rest ∧ v < 10 ^ w := by
  unfold scanNum at h
  split at h
  · exact Except.noConfusion h
  · rename_i hlen
    obtain ⟨d, hv, hd, hcs⟩ := scanNumGo_exact_inv w 0 v cs rest h (by omega)
    have hvd : v = d := by omega
    subst hvd
    exact ⟨hcs, hd⟩

theorem scanNumGo_digits_inv (max : Nat) : ∀ (ml acc v : Nat) (cs rest : List Char),
    scanNumGo ml max acc cs = Except.ok (v, rest) → ml ≤ max →
    ml ≤ cs.length →
    ∃ ds, cs = ds ++ rest ∧ ds.all Char.isDigit = true ∧ ml ≤ ds.length := by
  induction max with
  | zero =>
    intro ml acc v cs rest h hmax _
    cases h
    exact ⟨[], rfl, rfl, by omega⟩
  | succ m ih =>
    intro ml acc v cs rest h hmax hlen
    cases cs with
    | nil =>
      cases h
      exact ⟨[], rfl, rfl, by simpa using hlen⟩
    | cons c t =>
      by_cases hc : c.isDigit
      · have step : scanNumGo ml (m + 1) acc (c :: t)
            = scanNumGo (ml - 1) m (acc * 10 + charVal c) t := by
          simp [scanNumGo, hc]
        rw [step] at h
        obtain ⟨ds, hds1, hds2, hds3⟩ := ih (ml - 1) (acc * 10 + charVal c) v t rest h
          (by omega) (by simp only [List.length_cons] at hlen; omega)
        refine ⟨c :: ds, by rw [List.cons_append, hds1], ?_, ?_⟩
        · simp [hc, hds2]
        · simp only [List.length_cons]
          omega
      · by_cases hml : 0 < ml
        · have : scanNumGo ml (m + 1) acc (c :: t) = Except.error ParseError.Invalid := by
            simp [scanNumGo, hc, hml]
          rw [this] at h
          exact Except.noConfusion h
        · have hml0 : ml = 0 := by omega
          subst hml0
          have : scanNumGo 0 (m + 1) acc (c :: t) = Except.ok (acc, c :: t) := by
            simp [scanNumGo, hc]
          rw [this] at h
          cases h
          exact ⟨[], rfl, rfl, by simp⟩

theorem scanNum_digits_inv (min max : Nat) (cs rest : List Char) (v : Nat)
    (hminmax : min ≤ max)
    (h : scanNum min max cs = Except.ok (v, rest)) :
    ∃ ds, cs = ds ++ rest ∧ ds.all Char.isDigit = true ∧ min ≤ ds.length := by
  unfold scanNum at h
  split at h
  · exact Except.noConfusion h
  · rename_i hlen
    exact scanNumGo_digits_inv max min 0 v cs rest h hminmax (by omega)

theorem scanChar_inv (c : Char) (cs rest : List Char)
    (h : scanChar c cs = Except.ok rest) : cs = c :: rest := by
  unfold scanChar at h
  match cs, h with
  | x :: t, h =>
    by_cases hx : x = c
    · subst hx
      simp only [if_pos rfl] at h
      cases h
      rfl
    · simp only [if_neg hx] at h
      exact Except.noConfusion h

theorem takeWhile_all_digits (rem : List Char) :
    (rem.takeWhile Char.isDigit).all Char.isDigit = true := by
  rw [List.all_eq_true]
  intro x hx
  exact List.mem_takeWhile_imp hx

theorem scanNanosecond_inv (cs rest : List Char) (v : Nat)
    (h : scanNanosecond cs = Except.ok (v, rest)) :
    ∃ ds, cs = ds ++ rest ∧ ds ≠ [] ∧ ds.all Char.isDigit = true := by
  unfold scanNanosecond at h
  cases hs : scanNum 1 9 cs with
  | error e =>
    rw [hs] at h
    exact Except.noConfusion h
  | ok p =>
    obtain ⟨v1, rem⟩ := p
    rw [hs] at h
    dsimp only at h
    obtain ⟨heq1, heq2⟩ := Prod.mk.injEq .. ▸ (Except.ok.injEq .. ▸ h)
    obtain ⟨ds1, hds1, hds2, hds3⟩ := scanNum_digits_inv 1 9 cs rem v1
      (by norm_num) hs
    refine ⟨ds1 ++ rem.takeWhile Char.isDigit, ?_, ?_, ?_⟩
    · rw [hds1, ← heq2, List.append_assoc, List.takeWhile_append_dropWhile]
    · intro hcontra
      have := congrArg List.length hcontra
      simp only [List.length_append, List.length_nil] at this
      omega
    · rw [List.all_append, Bool.and_eq_true]
      exact ⟨hds2, takeWhile_all_digits rem⟩

theorem scanFrac_inv (cs rest : List Char) (v : Nat)
    (h : scanFrac cs = Except.ok (v, rest)) :
    ∃ frac, cs = frac ++ rest ∧ FracOk frac := by
  unfold scanFrac at h
  split at h
  · rename_i r
    obtain ⟨ds, hds1, hds2, hds3⟩ := scanNanosecond_inv r rest v h
    exact ⟨'.' :: ds, by rw [List.cons_append, hds1], Or.inr ⟨ds, rfl, hds2, hds3⟩⟩
  · cases h
    exact ⟨[], rfl, Or.inl rfl⟩

theorem toDateTime_inv (y mo d h mi se nano : Nat) (off : Int)
    (dt : DateTimeFixed) (hok : toDateTime y mo d h mi se nano off = Except.ok dt) :
    1 ≤ mo ∧ mo ≤ 12 ∧ 1 ≤ d ∧ d ≤ daysInMonth (y : Int) mo
      ∧ h ≤ 23 ∧ mi ≤ 59 ∧ se ≤ 60 := by
  unfold toDateTime at hok
  split at hok
  · assumption
  · exact Except.noConfusion hok

theorem scanOffset_inv (cs rest : List Char) (off : Int)
    (h : scanOffset cs = Except.ok (off, rest))
    (hb1 : -86400 < off) (hb2 : off < 86400) :
    ∃ tail, cs = tail ++ rest ∧ OffsetTailDenotes tail off := by
  cases cs with
  | nil =>
    unfold scanOffset at h
    exact Except.noConfusion h
  | cons c r =>
    unfold scanOffset at h
    dsimp only at h
    by_cases hz : c = 'Z' ∨ c = 'z'
    · rw [if_pos hz] at h
      obtain ⟨h1, h2⟩ := Prod.mk.injEq .. ▸ (Except.ok.injEq .. ▸ h)
      rcases hz with rfl | rfl
      · exact ⟨['Z'], by rw [← h2]; rfl, Or.inl ⟨rfl, h1.symm⟩⟩
      · exact ⟨['z'], by rw [← h2]; rfl, Or.inr (Or.inl ⟨rfl, h1.symm⟩)⟩
    · rw [if_neg hz] at h
      by_cases hpm : c = '+' ∨ c = '-'
      · rw [if_pos hpm] at h
        cases hh : scanNum 2 2 r with
        | error e => rw [hh] at h; exact Except.noConfusion h
        | ok p =>
          obtain ⟨oh, cs1⟩ := p
          rw [hh] at h
          dsimp only at h
          cases hcol : scanChar ':' cs1 with
          | error e => rw [hcol] at h; exact Except.noConfusion h
          | ok cs2 =>
            rw [hcol] at h
            dsimp only at h
            cases hm : scanNum 2 2 cs2 with
            | error e => rw [hm] at h; exact Except.noConfusion h
            | ok q =>
              obtain ⟨om, cs3⟩ := q
              rw [hm] at h
              dsimp only at h
              split at h
              · exact Except.noConfusion h
              · rename_i hom60
                obtain ⟨h1, h2⟩ := Prod.mk.injEq .. ▸ (Except.ok.injEq .. ▸ h)
                obtain ⟨hr1, hoh⟩ := scanNum_exact_inv 2 r cs1 oh hh
                have hcs1 : cs1 = ':' :: cs2 := scanChar_inv ':' cs1 cs2 hcol
                obtain ⟨hcs2, hom⟩ := scanNum_exact_inv 2 cs2 cs3 om hm
                subst h2
                have hoffv : off = if c = '-' then -((oh : Int) * 3600 + (om : Int) * 60)
                    else (oh : Int) * 3600 + (om : Int) * 60 := by
                  rcases hpm with rfl | rfl
                  · simpa using h1.symm
                  · simpa using h1.symm
                have hoh23 : oh ≤ 23 := by
                  rcases hpm with rfl | rfl
                  · simp only [if_neg (by decide : ¬ ('+' : Char) = '-')] at hoffv
                    omega
                  · simp only [if_pos rfl] at hoffv
                    omega
                refine ⟨c :: (padNum 2 oh ++ ':' :: padNum 2 om), ?_, ?_⟩
                · rw [hr1, hcs1, hcs2]
                  simp [List.append_assoc]
                · exact Or.inr (Or.inr ⟨c, oh, om, hpm, hoh23, by omega, rfl, hoffv⟩)
      · rw [if_neg hpm] at h
        exact Except.noConfusion h

/-- Every string the rfc3339 scanner accepts lies in the lenient rfc3339
dialect: the scanner parses nothing outside the grammar (with the separator
relaxed to `T`, `t` or space). -/
theorem parseFromRfc3339_sound (cs : List Char) (dt : DateTimeFixed)
    (h : parseFromRfc3339 cs = Except.ok dt) : IsLenientRfc3339 cs := by
  unfold parseFromRfc3339 at h
  cases hy : scanNum 4 4 cs with
  | error e => rw [hy] at h; exact Except.noConfusion h
  | ok p =>
  obtain ⟨y, cs1⟩ := p
  rw [hy] at h
  dsimp only at h
  cases hc1 : scanChar '-' cs1 with
  | error e => rw [hc1] at h; exact Except.noConfusion h
  | ok cs2 =>
  rw [hc1] at h
  dsimp only at h
  cases hmo : scanNum 2 2 cs2 with
  | error e => rw [hmo] at h; exact Except.noConfusion h
  | ok p =>
  obtain ⟨mo, cs3⟩ := p
  rw [hmo] at h
  dsimp only at h
  cases hc2 : scanChar '-' cs3 with
  | error e => rw [hc2] at h; exact Except.noConfusion h
  | ok cs4 =>
  rw [hc2] at h
  dsimp only at h
  cases hd : scanNum 2 2 cs4 with
  | error e => rw [hd] at h; exact Except.noConfusion h
  | ok p =>
  obtain ⟨d, cs5⟩ := p
  rw [hd] at h
  dsimp only at h
  cases cs5 with
  | nil => exact Except.noConfusion h
  | cons sep cs6 =>
  dsimp only at h
  by_cases hsep : sep = 'T' ∨ sep = 't' ∨ sep = ' '
  case neg => rw [if_neg hsep] at h; exact Except.noConfusion h
  rw [if_pos hsep] at h
  cases hh : scanNum 2 2 cs6 with
  | error e => rw [hh] at h; exact Except.noConfusion h
  | ok p =>
  obtain ⟨hr, cs7⟩ := p
  rw [hh] at h
  dsimp only at h
  cases hc3 : scanChar ':' cs7 with
  | error e => rw [hc3] at h; exact Except.noConfusion h
  | ok cs8 =>
  rw [hc3] at h
  dsimp only at h
  cases hmi : scanNum 2 2 cs8 with
  | error e => rw [hmi] at h; exact Except.noConfusion h
  | ok p =>
  obtain ⟨mi, cs9⟩ := p
  rw [hmi] at h
  dsimp only at h
  cases hc4 : scanChar ':' cs9 with
  | error e => rw [hc4] at h; exact Except.noConfusion h
  | ok cs10 =>
  rw [hc4] at h
  dsimp only at h
  cases hse : scanNum 2 2 cs10 with
  | error e => rw [hse] at h; exact Except.noConfusion h
  | ok p =>
  obtain ⟨se, cs11⟩ := p
  rw [hse] at h
  dsimp only at h
  cases hfr : scanFrac cs11 with
  | error e => rw [hfr] at h; exact Except.noConfusion h
  | ok p =>
  obtain ⟨nano, cs12⟩ := p
  rw [hfr] at h
  dsimp only at h
  cases hof : scanOffset cs12 with
  | error e => rw [hof] at h; exact Except.noConfusion h
  | ok p =>
  obtain ⟨off, cs13⟩ := p
  rw [hof] at h
  dsimp only at h
  by_cases hrange : off ≤ -86400 ∨ 86400 ≤ off
  case pos => rw [if_pos hrange] at h; exact Except.noConfusion h
  rw [if_neg hrange] at h
  by_cases hnil : cs13 ≠ []
  case pos => rw [if_pos hnil] at h; exact Except.noConfusion h
  rw [if_neg hnil] at h
  have hcs13 : cs13 = [] := by
    by_contra hcontra
    exact hnil hcontra
  subst hcs13
  obtain ⟨hmo1, hmo2, hd1, hd2, hhr, hmi59, hse60⟩ :=
    toDateTime_inv y mo d hr mi se nano off dt h
  obtain ⟨hcsy, hy4⟩ := scanNum_exact_inv 4 cs cs1 y hy
  have hcs1 : cs1 = '-' :: cs2 := scanChar_inv '-' cs1 cs2 hc1
  obtain ⟨hcs2, _⟩ := scanNum_exact_inv 2 cs2 cs3 mo hmo
  have hcs3 : cs3 = '-' :: cs4 := scanChar_inv '-' cs3 cs4 hc2
  obtain ⟨hcs4, _⟩ := scanNum_exact_inv 2 cs4 (sep :: cs6) d hd
  obtain ⟨hcs6, _⟩ := scanNum_exact_inv 2 cs6 cs7 hr hh
  have hcs7 : cs7 = ':' :: cs8 := scanChar_inv ':' cs7 cs8 hc3
  obtain ⟨hcs8, _⟩ := scanNum_exact_inv 2 cs8 cs9 mi hmi
  have hcs9 : cs9 = ':' :: cs10 := scanChar_inv ':' cs9 cs10 hc4
  obtain ⟨hcs10, _⟩ := scanNum_exact_inv 2 cs10 cs11 se hse
  obtain ⟨frac, hcs11, hfracok⟩ := scanFrac_inv cs11 cs12 nano hfr
  obtain ⟨tail, hcs12, htail⟩ := scanOffset_inv cs12 [] off hof
    (by omega) (by omega)
  rw [List.append_nil] at hcs12
  refine ⟨off, y, mo, d, hr, mi, se, sep, frac, tail, ?_, ?_, by omega,
    hmo1, hmo2, hd1, hd2, hhr, hmi59, hse60, hfracok, htail⟩
  · rw [hcsy, hcs1, hcs2, hcs3, hcs4, hcs6, hcs7, hcs8, hcs9, hcs10,
      hcs11, hcs12]
  · simpa using hsep

/-- Parsing succeeds on every string of the (lenient) rfc3339 shape, and the
parsed offset is the offset written in the string's offset field. -/
theorem parseFromRfc3339_shape (cs : List Char) (off : Int)
    (hval : Rfc3339Shape ['T', 't', ' '] cs off) :
    ∃ dt, parseFromRfc3339 cs = Except.ok dt ∧ dt.offset = off := by
  obtain ⟨y, mo, d, h, mi, se, sep, frac, tail, hcs, hsep, hy, hmo1, hmo2,
    hd1, hd2, hh, hmi, hse, hfrac, htail⟩ := hval
  subst hcs
  have hd31 : d ≤ 31 := le_trans hd2 (daysInMonth_le_31 _ _)
  have sy : ∀ rest, scanNum 4 4 (padNum 4 y ++ rest) = Except.ok (y, rest) := by
    intro rest
    rw [scanNum_pad, Nat.mod_eq_of_lt (by omega)]
  have smo : ∀ rest, scanNum 2 2 (padNum 2 mo ++ rest) = Except.ok (mo, rest) := by
    intro rest
    rw [scanNum_pad, Nat.mod_eq_of_lt (by omega)]
  have sd : ∀ rest, scanNum 2 2 (padNum 2 d ++ rest) = Except.ok (d, rest) := by
    intro rest
    rw [scanNum_pad, Nat.mod_eq_of_lt (by omega)]
  have sh : ∀ rest, scanNum 2 2 (padNum 2 h ++ rest) = Except.ok (h, rest) := by
    intro rest
    rw [scanNum_pad, Nat.mod_eq_of_lt (by omega)]
  have smi : ∀ rest, scanNum 2 2 (padNum 2 mi ++ rest) = Except.ok (mi, rest) := by
    intro rest
    rw [scanNum_pad, Nat.mod_eq_of_lt (by omega)]
  have sse : ∀ rest, scanNum 2 2 (padNum 2 se ++ rest) = Except.ok (se, rest) := by
    intro rest
    rw [scanNum_pad, Nat.mod_eq_of_lt (by omega)]
  have hnd : nonDigitStart tail = true := offsetTail_nonDigitStart tail off htail
  have hdot : ∀ t, tail ≠ '.' :: t := offsetTail_ne_dot tail off htail
  have sfrac : ∃ v, scanFrac (frac ++ tail) = Except.ok (v, tail) := by
    rcases hfrac with rfl | ⟨ds, rfl, hne, hds⟩
    · refine ⟨0, ?_⟩
      rw [List.nil_append]
      exact scanFrac_no_dot tail hdot
    · rw [List.cons_append]
      show ∃ v, scanNanosecond (ds ++ tail) = Except.ok (v, tail)
      exact scanNanosecond_digits ds tail hne hds hnd
  obtain ⟨v, hfr⟩ := sfrac
  have soff : scanOffset tail = Except.ok (off, []) :=
    scanOffset_denotes tail off htail
  have hob := offsetTail_bounds tail off htail
  have htr : ¬ (off ≤ -86400 ∨ 86400 ≤ off) := by omega
  have hnil : ¬ (([] : List Char) ≠ []) := fun hx => hx rfl
  have hsep2 : sep = 'T' ∨ sep = 't' ∨ sep = ' ' := by simpa using hsep
  have hcond : 1 ≤ mo ∧ mo ≤ 12 ∧ 1 ≤ d ∧ d ≤ daysInMonth ((y : Nat) : Int) mo
      ∧ h ≤ 23 ∧ mi ≤ 59 ∧ se ≤ 60 :=
    ⟨hmo1, hmo2, hd1, hd2, hh, hmi, hse⟩
  unfold parseFromRfc3339
  rw [sy]
  dsimp only
  rw [scanChar_cons]
  dsimp only
  rw [smo]
  dsimp only
  rw [scanChar_cons]
  dsimp only
  rw [sd]
  dsimp only
  rw [if_pos hsep2]
  rw [sh]
  dsimp only
  rw [scanChar_cons]
  dsimp only
  rw [smi]
  dsimp only
  rw [scanChar_cons]
  dsimp only
  rw [sse]
  dsimp only
  rw [hfr]
  dsimp only
  rw [soff]
  dsimp only
  rw [if_neg htr, if_neg hnil]
  unfold toDateTime
  rw [if_pos hcond]
  by_cases hse60 : se = 60
  · rw [if_pos hse60]
    exact ⟨⟨(y : Int), mo, d, h, mi, 59, v + 1000000000, off⟩, rfl, rfl⟩
  · rw [if_neg hse60]
    exact ⟨⟨(y : Int), mo, d, h, mi, se, v, off⟩, rfl, rfl⟩

theorem rfc3339Shape_min_length (seps cs : List Char) (off : Int)
    (h : Rfc3339Shape seps cs off) : 20 ≤ cs.length := by
  obtain ⟨y, mo, d, hh, mi, se, sep, frac, tail, hcs, _, _, _, _, _, _, _, _,
    _, _, htail⟩ := h
  subst hcs
  have htl : 1 ≤ tail.length := by
    rcases htail with ⟨rfl, _⟩ | ⟨rfl, _⟩ | ⟨sg, oh, om, _, _, _, rfl, _⟩ <;>
      simp [padNum_length]
  simp only [List.length_append, List.length_cons, padNum_length]
  omega

theorem isPrefixOf_append_self (l r : List Char) :
    l.isPrefixOf (l ++ r) = true := by
  induction l with
  | nil => simp [List.isPrefixOf]
  | cons c t ih => simp [List.isPrefixOf, ih]

theorem listContains_of_isPrefixOf (pat s : List Char)
    (hp : pat.isPrefixOf s = true) : listContains pat s = true := by
  cases s with
  | nil =>
    cases pat with
    | nil => rfl
    | cons c t => simp [List.isPrefixOf] at hp
  | cons c t => simp [listContains, hp]

theorem listContains_cons (pat : List Char) (c : Char) (s : List Char)
    (h : listContains pat s = true) : listContains pat (c :: s) = true := by
  simp [listContains, h]

theorem listContains_append_left (pre pat s : List Char)
    (h : listContains pat s = true) : listContains pat (pre ++ s) = true := by
  induction pre with
  | nil => simpa
  | cons c t ih => simpa [List.cons_append] using listContains_cons pat c (t ++ s) ih

theorem listContains_self_append (pat post : List Char) :
    listContains pat (pat ++ post) = true :=
  listContains_of_isPrefixOf _ _ (isPrefixOf_append_self pat post)

theorem rustEscapeChar_plain (c : Char) (h : rustPlainChar c = true) :
    rustEscapeChar c = [c] := by
  simp only [rustPlainChar, Bool.and_eq_true, decide_eq_true_eq, ne_eq,
    bne_iff_ne] at h
  obtain ⟨⟨⟨h1, h2⟩, h3⟩, h4⟩ := h
  have hn : ¬ (c = '\n') := fun hc => by subst hc; exact absurd h3 (by decide)
  have hr : ¬ (c = '\r') := fun hc => by subst hc; exact absurd h3 (by decide)
  have ht : ¬ (c = '\t') := fun hc => by subst hc; exact absurd h3 (by decide)
  have h0 : ¬ (c.toNat = 0) := by omega
  have hlt : ¬ (c.toNat < 32 ∨ c.toNat = 127) := by omega
  rw [rustEscapeChar, if_neg h1, if_neg h2, if_neg hn, if_neg hr, if_neg ht,
    if_neg h0, if_neg hlt]

theorem flatMap_escape_plain (l : List Char) (h : l.all rustPlainChar = true) :
    l.flatMap rustEscapeChar = l := by
  induction l with
  | nil => rfl
  | cons c t ih =>
    simp only [List.all_cons, Bool.and_eq_true] at h
    show rustEscapeChar c ++ t.flatMap rustEscapeChar = c :: t
    rw [rustEscapeChar_plain c h.1, ih h.2]
    rfl

/-! ## Claim theorems for the timestamp codec -/

/-- C9: the deserializer's visitor implements only visit_str, so every JSON
value that is not a string (number, boolean, null, object or array) fails to
decode with an error rather than being coerced. -/
theorem deserialize_rejects_nonstrings (v : Json) (hns : ∀ s, v ≠ Json.str s) :
    ∃ e, Iso8601.deserialize v = Except.error e := by
  cases v with
  | str s => exact absurd rfl (hns s)
  | null => exact ⟨_, rfl⟩
  | boolean b => exact ⟨_, rfl⟩
  | num n => exact ⟨_, rfl⟩
  | arr xs => exact ⟨_, rfl⟩
  | obj fields => exact ⟨_, rfl⟩

/-- Witness for C9: a JSON number (not a string) is rejected. -/
theorem deserialize_rejects_nonstrings_witness :
    ∃ e, Iso8601.deserialize (Json.num 5) = Except.error e :=
  deserialize_rejects_nonstrings (Json.num 5) (fun _ h => Json.noConfusion h)

/-- C7: the timestamp deserializer accepts RFC-3339 strings whether the UTC
offset is written as an explicit numeric offset (such as +01:30) or as the
designator Z (upper or lower case, as ABNF literals are case insensitive):
for every syntactically valid RFC-3339 string of either form, decoding
succeeds and yields a timestamp carrying the offset written in the text. -/
theorem deserialize_accepts_rfc3339 (s : String) (off : Int)
    (hval : IsRfc3339 s.data off) :
    ∃ dt, Iso8601.deserialize (Json.str s) = Except.ok dt ∧ dt.offset = off := by
  have hlen : Rfc3339Shape ['T', 't', ' '] s.data off := by
    obtain ⟨y, mo, d, h, mi, se, sep, frac, tail, hcs, hsep, hrest⟩ := hval
    refine ⟨y, mo, d, h, mi, se, sep, frac, tail, hcs, ?_, hrest⟩
    simp only [List.mem_cons] at hsep ⊢
    tauto
  obtain ⟨dt, hdt, hoff⟩ := parseFromRfc3339_shape s.data off hlen
  refine ⟨dt, ?_, hoff⟩
  unfold Iso8601.deserialize
  dsimp only
  rw [hdt]

/-- Witness for C7: both offset spellings decode, the numeric form +01:30 to
offset 5400 seconds and the bare designator Z to offset 0. -/
theorem deserialize_accepts_rfc3339_witness :
    (∃ dt, Iso8601.deserialize (Json.str "2024-03-01T12:00:00+01:30")
        = Except.ok dt ∧ dt.offset = 5400) ∧
    (∃ dt, Iso8601.deserialize (Json.str "2024-03-01T12:00:00Z")
        = Except.ok dt ∧ dt.offset = 0) := by
  constructor
  · exact deserialize_accepts_rfc3339 "2024-03-01T12:00:00+01:30" 5400
      ⟨2024, 3, 1, 12, 0, 0, 'T', [], '+' :: (padNum 2 1 ++ ':' :: padNum 2 30),
        by decide, by decide, by decide, by decide, by decide, by decide,
        by decide, by decide, by decide, by decide, Or.inl rfl,
        Or.inr (Or.inr ⟨'+', 1, 30, Or.inl rfl, by decide, by decide, rfl,
          by decide⟩)⟩
  · exact deserialize_accepts_rfc3339 "2024-03-01T12:00:00Z" 0
      ⟨2024, 3, 1, 12, 0, 0, 'T', [], ['Z'],
        by decide, by decide, by decide, by decide, by decide, by decide,
        by decide, by decide, by decide, by decide, Or.inl rfl,
        Or.inl ⟨rfl, rfl⟩⟩

/-- C8 counterexample: the input string consisting of the three characters
a, double quote, b is not a valid RFC-3339 timestamp (not even in chrono's
lenient dialect), so the claim applies to it; the deserializer does fail on
it, but the failure message contains the Rust debug rendering of the input
(with the quote escaped), and the original three-character input text does
not occur in the message. -/
theorem deserialize_failure_message_counterexample :
    (¬ IsLenientRfc3339 ("a\"b" : String).data) ∧
    (Iso8601.deserialize (Json.str "a\"b")
        = Except.error (DeError.custom
            "invaild timestamp \"a\\\"b\": premature end of input")
      ∧ listContains ("a\"b" : String).data
          ("invaild timestamp \"a\\\"b\": premature end of input" : String).data
        = false) := by
  refine ⟨?_, by decide, by decide⟩
  rintro ⟨off, hsh⟩
  have hlen := rfc3339Shape_min_length _ _ _ hsh
  revert hlen
  decide

/-- C8 (amended): whenever RFC-3339 parsing of the input fails — and it does
fail on every input outside chrono's lenient rfc3339 dialect — the
deserializer fails with a message assembled from the fixed prefix, the Rust
debug rendering of the offending input and the underlying parse failure
reason; for inputs of ASCII characters (the range on which the debug-escape
model is exact) the message contains the debug rendering of the input and
the failure reason's text, and it contains the input text verbatim whenever
every input character is printable ASCII other than the quote and the
backslash — that is, whenever no character requires a debug escape (control
characters, including DEL, do require one). -/
theorem deserialize_failure_message (s : String) :
    (∀ e, s.data.all asciiChar = true →
      parseFromRfc3339 s.data = Except.error e →
      Iso8601.deserialize (Json.str s)
        = Except.error (DeError.custom
            ("invaild timestamp " ++ rustDebugString s ++ ": " ++ e.display))
      ∧ listContains (rustDebugString s).data
          ("invaild timestamp " ++ rustDebugString s ++ ": " ++ e.display).data
          = true
      ∧ listContains (ParseError.display e).data
          ("invaild timestamp " ++ rustDebugString s ++ ": " ++ e.display).data
          = true
      ∧ (s.data.all rustPlainChar = true → listContains s.data
          ("invaild timestamp " ++ rustDebugString s ++ ": " ++ e.display).data
          = true))
    ∧ (¬ IsLenientRfc3339 s.data →
        ∃ e, parseFromRfc3339 s.data = Except.error e) := by
  constructor
  · intro e _hascii he
    refine ⟨?_, ?_, ?_, ?_⟩
    · unfold Iso8601.deserialize
      dsimp only
      rw [he]
    · simp only [String.data_append, List.append_assoc]
      exact listContains_append_left _ _ _ (listContains_self_append _ _)
    · simp only [String.data_append, List.append_assoc]
      refine listContains_append_left _ _ _ (listContains_append_left _ _ _
        (listContains_append_left _ _ _ ?_))
      have := listContains_self_append (ParseError.display e).data []
      rwa [List.append_nil] at this
    · intro hall
      simp only [String.data_append, List.append_assoc]
      refine listContains_append_left _ _ _ ?_
      show listContains s.data ((rustDebugString s).data ++ _) = true
      have hdbg : (rustDebugString s).data
          = '"' :: (s.data ++ ['"']) := by
        show ('"' :: (s.data.flatMap rustEscapeChar ++ ['"'])) = _
        rw [flatMap_escape_plain s.data hall]
      rw [hdbg]
      rw [List.cons_append, List.append_assoc]
      exact listContains_cons _ _ _ (listContains_self_append _ _)
  · intro hnl
    cases hp : parseFromRfc3339 s.data with
    | error e => exact ⟨e, rfl⟩
    | ok dt => exact absurd (parseFromRfc3339_sound s.data dt hp) hnl

/-- Witness for C8 (amended): the input "not-a-date" is rejected with the
message containing its text, and the one-character input "x", which is not in
the lenient dialect, makes parsing fail. -/
theorem deserialize_failure_message_witness :
    (Iso8601.deserialize (Json.str "not-a-date")
      = Except.error (DeError.custom
          "invaild timestamp \"not-a-date\": input contains invalid characters")
      ∧ listContains ("not-a-date" : String).data
          ("invaild timestamp \"not-a-date\": input contains invalid characters"
            : String).data = true)
    ∧ (∃ e, parseFromRfc3339 ("x" : String).data = Except.error e) := by
  constructor
  · have h := (deserialize_failure_message "not-a-date").1 ParseError.Invalid
      (by decide) (by decide)
    constructor
    · rw [h.1]
      decide
    · have h4 := h.2.2.2 (by decide)
      have heq : ("invaild timestamp " ++ rustDebugString "not-a-date" ++ ": "
          ++ ParseError.Invalid.display)
          = "invaild timestamp \"not-a-date\": input contains invalid characters" := by
        decide
      rwa [heq] at h4
  · refine (deserialize_failure_message "x").2 ?_
    rintro ⟨off, hsh⟩
    have hlen := rfc3339Shape_min_length _ _ _ hsh
    revert hlen
    decide

/-- C3 counterexample: a timestamp whose fixed offset is not a whole number
of minutes (here 30 seconds east) does not survive the round trip, because
the rfc3339 offset field only carries hours and minutes: serializing and
deserializing yields a timestamp with offset 0, a different offset denoting a
different instant. -/
theorem timestamp_roundtrip_counterexample :
    Iso8601.deserialize (Iso8601.serialize ⟨2024, 1, 1, 0, 0, 0, 0, 30⟩)
      = Except.ok ⟨2024, 1, 1, 0, 0, 0, 0, 0⟩
    ∧ (0 : Int) ≠ (30 : Int)
    ∧ DateTimeFixed.instantSeconds ⟨2024, 1, 1, 0, 0, 0, 0, 0⟩
        ≠ DateTimeFixed.instantSeconds ⟨2024, 1, 1, 0, 0, 0, 0, 30⟩ := by
  refine ⟨by decide, by decide, by decide⟩

/-- C3 (amended): for every valid timestamp within the wire format's
representable range (year 0-9999, no leap-second representation) whose fixed
offset is a whole number of minutes, serializing and then deserializing
yields the identical timestamp: the same civil fields and the same offset,
hence the same instant; in particular a non-zero offset is preserved and not
normalized to UTC.  (Sub-minute offsets are excluded: the counterexample
shows the wire format cannot carry them.) -/
theorem timestamp_roundtrip (dt : DateTimeFixed) (hv : dt.isValid)
    (hy0 : 0 ≤ dt.year) (hy : dt.year ≤ 9999) (h60 : dt.offset % 60 = 0) :
    Iso8601.deserialize (Iso8601.serialize dt) = Except.ok dt := by
  have hoff : -86400 < dt.offset ∧ dt.offset < 86400 := ⟨hv.2.2.2.2.2.2.2.2.1,
    hv.2.2.2.2.2.2.2.2.2⟩
  have htr : truncOffset dt.offset = dt.offset :=
    truncOffset_of_whole_minute dt.offset hoff.1 hoff.2 h60
  unfold Iso8601.serialize Iso8601.deserialize
  dsimp only
  rw [parse_toRfc3339 dt hv hy0 hy, htr]

/-- Witness for C3 (amended): a timestamp with the non-zero offset +01:00
round-trips to itself, every field and the offset intact. -/
theorem timestamp_roundtrip_witness :
    Iso8601.deserialize (Iso8601.serialize ⟨2024, 3, 1, 12, 30, 45, 500000000, 3600⟩)
      = Except.ok ⟨2024, 3, 1, 12, 30, 45, 500000000, 3600⟩ :=
  timestamp_roundtrip ⟨2024, 3, 1, 12, 30, 45, 500000000, 3600⟩
    (by decide) (by decide) (by decide) (by decide)

/-- C10 counterexample: the serializer is not left-total into the
deserializer's domain: a chrono timestamp with year 10000 serializes (per the
out-of-range year branch) to "+10000-01-01T00:00:00+00:00", on which
deserialization fails, since the rfc3339 scanner requires the year to be
exactly four digits. -/
theorem serialize_then_deserialize_fails_counterexample :
    ∃ e, Iso8601.deserialize (Iso8601.serialize ⟨10000, 1, 1, 0, 0, 0, 0, 0⟩)
      = Except.error e :=
  ⟨DeError.custom
      "invaild timestamp \"+10000-01-01T00:00:00+00:00\": input contains invalid characters",
   by decide⟩

/-- C10 (amended): the serializer's output always carries an explicit numeric
offset field, a sign followed by two zero-padded digit pairs separated by a
colon, and never contains a zulu designator in either case; and for every
valid timestamp within the wire format's representable range (year 0-9999,
no leap-second representation) deserializing the serializer's output
succeeds.  (Timestamps outside that range break totality: the counterexample
serializes year 10000, which the deserializer rejects.) -/
theorem serializer_output_parseable (dt : DateTimeFixed) :
    (∃ pre hh mm, Iso8601.serialize dt
        = Json.str (String.mk (pre ++ ((if dt.offset < 0 then '-' else '+')
            :: (padNum 2 hh ++ ':' :: padNum 2 mm))))) ∧
    'Z' ∉ toRfc3339 dt ∧ 'z' ∉ toRfc3339 dt ∧
    (dt.isValid → 0 ≤ dt.year → dt.year ≤ 9999 →
      ∃ dt2, Iso8601.deserialize (Iso8601.serialize dt) = Except.ok dt2) := by
  refine ⟨?_, ?_, ?_, ?_⟩
  · refine ⟨yearPart dt.year ++ ('-' :: (padNum 2 dt.month ++ ('-' :: (padNum 2 dt.day
      ++ ('T' :: (padNum 2 dt.hour ++ (':' :: (padNum 2 dt.minute
      ++ (':' :: (padNum 2 dt.second ++ fracPart dt.nano)))))))))),
      (if dt.offset < 0 then (-dt.offset).toNat else dt.offset.toNat) / 3600,
      (if dt.offset < 0 then (-dt.offset).toNat else dt.offset.toNat) / 60 % 60, ?_⟩
    unfold Iso8601.serialize toRfc3339 offsetPart
    simp
  · intro h
    rcases toRfc3339_mem dt 'Z' h with h | h | h | h | h | h <;> simp_all
  · intro h
    rcases toRfc3339_mem dt 'z' h with h | h | h | h | h | h <;> simp_all
  · intro hv hy0 hy
    exact ⟨{ dt with offset := truncOffset dt.offset }, by
      unfold Iso8601.serialize Iso8601.deserialize
      dsimp only
      rw [parse_toRfc3339 dt hv hy0 hy]⟩

/-- Witness for C10 (amended): at a concrete in-range timestamp, the last
conjunct's hypotheses hold and deserializing the serialized form succeeds. -/
theorem serializer_output_parseable_witness :
    ∃ dt2, Iso8601.deserialize
        (Iso8601.serialize ⟨2024, 6, 15, 8, 0, 0, 0, -4500⟩) = Except.ok dt2 :=
  (serializer_output_parseable ⟨2024, 6, 15, 8, 0, 0, 0, -4500⟩).2.2.2
    (by decide) (by decide) (by decide)

end Vapix
